import Mathlib

/-!
Verification of the Deployment & Domain Lifecycle Manager of the
sebaircode-ai-engine repository (`src/deployment_manager.py`).

The filesystem under the manager's base path is modelled as an association
list from paths (lists of components, relative to the base path) to file
data.  File data is either raw text (user files), a serialized deployment
record (`deployment.json`, written by `json.dump` of the deployment config
and read back by `json.load`), or the serialized domain-bindings map
(`domains.json`).  Directories are implicit: a directory exists when some
file lives strictly below it, matching `os.path.exists` on the directories
these code paths create (every directory the code makes is immediately
populated).  External `npm` processes are modelled by an environment
recording each step's exit code, captured output and wall-clock duration,
plus the files the toolchain would leave under the app directory on a
successful build.
-/

namespace SebairCode

abbrev Path := List String

/-- One deployment record, the dict built in `deploy_app`
(`deployment_config`) with the optional keys later added by
`_build_react_app`'s result merge and by `update_deployment`. -/
structure DeploymentRecord where
  app_id : String
  app_name : String
  app_type : String
  app_dir : Path
  deployed_at : String
  status : String
  url : String
  subdomain : String
  files : List Path
  build_output : Option String
  static_dir : Option Path
  updated_at : Option String
  backup_created : Option Path
deriving DecidableEq, Repr

/-- One entry of `domains.json`: the per-app dict manipulated by
`DomainManager.register_subdomain` / `register_custom_domain`.  Every key
is optional because `register_custom_domain` creates partial dicts. -/
structure DomainBinding where
  subdomain : Option String
  full_domain : Option String
  registered_at : Option String
  dtype : Option String
  custom_domain : Option String
  custom_domain_registered_at : Option String
  custom_domain_verified : Option Bool
deriving DecidableEq, Repr

/-- Contents of one file under the base path. -/
inductive FData where
  | text (s : String)
  | record (r : DeploymentRecord)
  | domains (d : List (String × DomainBinding))
deriving DecidableEq, Repr

abbrev FS := List (Path × FData)

/-- Contents of the file at `p`, if a file (not a directory) is there. -/
def getF : FS → Path → Option FData
  | [], _ => none
  | (q, c) :: rest, p => if q = p then some c else getF rest p

def removeF : FS → Path → FS
  | [], _ => []
  | (q, c) :: rest, p => if q = p then removeF rest p else (q, c) :: removeF rest p

/-- `open(p, 'w')` followed by a full write. -/
def writeF (fs : FS) (p : Path) (c : FData) : FS :=
  (p, c) :: removeF fs p

/-- `a` is a (not necessarily proper) prefix of `b`. -/
def isPref : Path → Path → Bool
  | [], _ => true
  | _ :: _, [] => false
  | a :: as, b :: bs => if a = b then isPref as bs else false

/-- `a` is a proper prefix of `b`: `b` lives strictly below directory `a`. -/
def strictPref (a b : Path) : Bool :=
  isPref a b && decide (a.length < b.length)

/-- A directory exists at `p` when some file lives strictly below it. -/
def dirExists : FS → Path → Bool
  | [], _ => false
  | (q, _) :: rest, p => if strictPref p q then true else dirExists rest p

/-- `os.path.exists`: a file or a directory is at `p`. -/
def pathExists (fs : FS) (p : Path) : Bool :=
  (getF fs p).isSome || dirExists fs p

/-- `shutil.rmtree p`: drop everything at or below `p`. -/
def rmtreeF : FS → Path → FS
  | [], _ => []
  | (q, c) :: rest, p => if isPref p q then rmtreeF rest p else (q, c) :: rmtreeF rest p

/-- The `if os.path.exists(p): shutil.rmtree(p)` idiom. -/
def clearTree (fs : FS) (p : Path) : FS :=
  if pathExists fs p then rmtreeF fs p else fs

/-- The files below `src`, re-rooted below `dst`. -/
def rerootF (src dst : Path) : FS → FS
  | [] => []
  | (p, c) :: rest =>
      if isPref src p then (dst ++ p.drop src.length, c) :: rerootF src dst rest
      else rerootF src dst rest

/-- `shutil.copytree src dst` (call sites guarantee nothing is at `dst`). -/
def copytreeF (fs : FS) (src dst : Path) : FS :=
  rerootF src dst fs ++ fs

/-- Write each mapping entry in order below `root`
(the file-writing loop of `deploy_app`). -/
def writeFiles (fs : FS) (root : Path) : List (Path × String) → FS
  | [] => fs
  | (rel, c) :: rest => writeFiles (writeF fs (root ++ rel) (FData.text c)) root rest

def appsDir (app_id : String) : Path := ["apps", app_id]

def staticDir (app_id : String) : Path := ["static", app_id]

def metadataPath (app_id : String) : Path := ["apps", app_id, "deployment.json"]

def domainsPath : Path := ["domains.json"]

def backupsRoot : Path := ["backups"]

def baseDomain : String := "sebaircode.com"

/-- The JSON body of a deploy/update request. -/
structure AppData where
  app_id : Option String
  app_name : Option String
  app_type : Option String
  files : List (Path × String)
deriving DecidableEq, Repr

/-- Outcome of one `subprocess.run` invocation: exit code, captured
output, and how long the process ran (seconds). -/
structure ProcResult where
  returncode : Int
  stdout : String
  stderr : String
  duration : Nat
deriving DecidableEq, Repr

/-- The external `npm` toolchain: results of the install and build steps
and the files a successful build leaves below the app directory. -/
structure BuildEnv where
  installR : ProcResult
  buildR : ProcResult
  outputFiles : List (Path × String)
deriving DecidableEq, Repr

/-- `timeout=300` passed to both `subprocess.run` calls. -/
def npmTimeout : Nat := 300

/-- The filesystem state inside `_build_react_app` after both toolchain
steps succeeded (their output files written below the app directory) and
the old published tree was cleared — the state in which the code then
looks for the `build`/`dist` output directory. -/
def postBuildFS (fs : FS) (env : BuildEnv) (app_id : String) : FS :=
  clearTree (writeFiles fs (appsDir app_id) env.outputFiles) (staticDir app_id)

/-- `DeploymentManager._build_react_app`.  Returns the updated filesystem
and either an error string or `(build stdout, static dir)`. -/
def buildReactApp (fs : FS) (env : BuildEnv) (app_id : String) :
    FS × Except String (String × Path) :=
  if env.installR.duration > npmTimeout then
    (fs, .error "Build process timed out")
  else if env.installR.returncode ≠ 0 then
    (fs, .error ("Failed to install dependencies: " ++ env.installR.stderr))
  else if env.buildR.duration > npmTimeout then
    (fs, .error "Build process timed out")
  else if env.buildR.returncode ≠ 0 then
    (fs, .error ("Failed to build app: " ++ env.buildR.stderr))
  else
    let adir := appsDir app_id
    let sdir := staticDir app_id
    let fs2 := postBuildFS fs env app_id
    let bdir := adir ++ ["build"]
    if pathExists fs2 bdir then
      (copytreeF fs2 bdir sdir, .ok (env.buildR.stdout, sdir))
    else
      let ddir := adir ++ ["dist"]
      if pathExists fs2 ddir then
        (copytreeF fs2 ddir sdir, .ok (env.buildR.stdout, sdir))
      else
        (fs2, .error "Build directory not found")

/-- The effective app id: `app_data.get('app_id') or str(uuid.uuid4())`
(Python `or` also replaces the empty string). -/
def effAppId (d : AppData) (fresh : String) : String :=
  match d.app_id with
  | some s => if s = "" then fresh else s
  | none => fresh

/-- The `deployment_config` dict built by `deploy_app`. -/
def mkConfig (app_id app_name app_type now : String) (files : List (Path × String)) :
    DeploymentRecord :=
  { app_id := app_id
    app_name := app_name
    app_type := app_type
    app_dir := appsDir app_id
    deployed_at := now
    status := "deployed"
    url := "https://" ++ app_id ++ ".sebaircode.com"
    subdomain := app_id
    files := files.map Prod.fst
    build_output := none
    static_dir := none
    updated_at := none
    backup_created := none }

/-- `DeploymentManager._save_deployment_metadata`. -/
def saveDeploymentMetadata (fs : FS) (app_id : String) (r : DeploymentRecord) : FS :=
  writeF fs (metadataPath app_id) (FData.record r)

/-- The `deployment_config` dict a deploy of `d` builds. -/
def deployConfig (fresh now : String) (d : AppData) : DeploymentRecord :=
  mkConfig (effAppId d fresh) (d.app_name.getD ("app-" ++ effAppId d fresh))
    (d.app_type.getD "static") now d.files

/-- The filesystem state in `deploy_app` after the app directory was
replaced, the request files written, and the metadata record saved —
i.e. the state reached before the publish/build branch runs. -/
def preBranchFS (fs : FS) (fresh now : String) (d : AppData) : FS :=
  saveDeploymentMetadata
    (writeFiles (clearTree fs (appsDir (effAppId d fresh))) (appsDir (effAppId d fresh))
      d.files)
    (effAppId d fresh) (deployConfig fresh now d)

/-- `DeploymentManager.deploy_app`.  `fresh` is the uuid used when the
request carries no app id, `now` the current timestamp. -/
def deployApp (fs : FS) (env : BuildEnv) (fresh now : String) (d : AppData) :
    FS × Except String DeploymentRecord :=
  let app_id := effAppId d fresh
  let app_type := d.app_type.getD "static"
  let config := deployConfig fresh now d
  let fs3 := preBranchFS fs fresh now d
  if app_type = "static" ∨ app_type = "simple_website" then
    let sdir := staticDir app_id
    (copytreeF (clearTree fs3 sdir) (appsDir app_id) sdir, .ok config)
  else if app_type = "react_app" then
    match buildReactApp fs3 env app_id with
    | (fs4, .error e) => (fs4, .error e)
    | (fs4, .ok bo) =>
        (fs4, .ok { config with build_output := some bo.1, static_dir := some bo.2 })
  else
    (fs3, .ok config)

/-- `DeploymentManager.get_deployment_info`: read parse errors and absence
are both reported as `none`. -/
def getDeploymentInfo (fs : FS) (app_id : String) : Option DeploymentRecord :=
  match getF fs (metadataPath app_id) with
  | some (FData.record r) => some r
  | _ => none

/-- `DeploymentManager.delete_deployment`. -/
def deleteDeployment (fs : FS) (app_id : String) : FS × Except String String :=
  let adir := appsDir app_id
  let fs1 := clearTree fs adir
  let sdir := staticDir app_id
  let fs2 := clearTree fs1 sdir
  (fs2, .ok "Deployment deleted successfully")

/-- The timestamp-suffixed backup directory name. -/
def backupName (app_id ts : String) : String :=
  app_id ++ "_backup_" ++ ts

/-- `DeploymentManager.backup_deployment`.  `shutil.copytree` raises
`FileExistsError` when the destination already exists. -/
def backupDeployment (fs : FS) (app_id ts : String) : FS × Except String Path :=
  let adir := appsDir app_id
  if pathExists fs adir then
    let bpath := backupsRoot ++ [backupName app_id ts]
    if pathExists fs bpath then
      (fs, .error "File exists")
    else
      (copytreeF fs adir bpath, .ok bpath)
  else
    (fs, .error "Deployment not found")

/-- `DeploymentManager.update_deployment`. -/
def updateDeployment (fs : FS) (env : BuildEnv) (app_id : String) (d : AppData)
    (fresh ts now : String) : FS × Except String DeploymentRecord :=
  match getDeploymentInfo fs app_id with
  | none => (fs, .error "Deployment not found")
  | some _ =>
    match backupDeployment fs app_id ts with
    | (_, .error e) => (fs, .error e)
    | (fs1, .ok bpath) =>
      let d1 : AppData := { d with app_id := some app_id }
      match deployApp fs1 env fresh now d1 with
      | (fs2, .error e) => (fs2, .error e)
      | (fs2, .ok r) =>
        let r1 := { r with updated_at := some now, backup_created := some bpath }
        (saveDeploymentMetadata fs2 (effAppId d1 fresh) r1, .ok r1)

/-- Read and parse `domains.json`. -/
def loadDomains (fs : FS) : Option (List (String × DomainBinding)) :=
  match getF fs domainsPath with
  | some (FData.domains d) => some d
  | _ => none

/-- `domains[app_id] = b` on the parsed dict. -/
def setDomain (d : List (String × DomainBinding)) (app_id : String) (b : DomainBinding) :
    List (String × DomainBinding) :=
  (app_id, b) :: d.filter (fun e => e.1 ≠ app_id)

def lookupDomain : List (String × DomainBinding) → String → Option DomainBinding
  | [], _ => none
  | (k, b) :: rest, app_id => if k = app_id then some b else lookupDomain rest app_id

/-- The uniqueness scan of `register_subdomain`: some existing binding
(whoever owns it) holds this exact subdomain string. -/
def subdomainTaken : List (String × DomainBinding) → String → Bool
  | [], _ => false
  | (_, b) :: rest, s => if b.subdomain = some s then true else subdomainTaken rest s

/-- `DomainManager.register_subdomain`. -/
def registerSubdomain (fs : FS) (app_id subdomain now : String) :
    FS × Except String (String × String) :=
  match loadDomains fs with
  | none => (fs, .error "domains store unreadable")
  | some d =>
    if subdomainTaken d subdomain then
      (fs, .error "Subdomain already taken")
    else
      let full := subdomain ++ "." ++ baseDomain
      let b : DomainBinding :=
        { subdomain := some subdomain
          full_domain := some full
          registered_at := some now
          dtype := some "subdomain"
          custom_domain := none
          custom_domain_registered_at := none
          custom_domain_verified := none }
      (writeF fs domainsPath (FData.domains (setDomain d app_id b)), .ok (full, subdomain))

def emptyBinding : DomainBinding :=
  { subdomain := none
    full_domain := none
    registered_at := none
    dtype := none
    custom_domain := none
    custom_domain_registered_at := none
    custom_domain_verified := none }

/-- `DomainManager.register_custom_domain`: merges into the existing
binding (or a fresh empty dict) rather than replacing it. -/
def registerCustomDomain (fs : FS) (app_id custom_domain now : String) :
    FS × Except String String :=
  match loadDomains fs with
  | none => (fs, .error "domains store unreadable")
  | some d =>
    let existing := (lookupDomain d app_id).getD emptyBinding
    let b := { existing with
                custom_domain := some custom_domain
                custom_domain_registered_at := some now
                custom_domain_verified := some false }
    (writeF fs domainsPath (FData.domains (setDomain d app_id b)), .ok custom_domain)

/-- `DomainManager.get_domain_info`. -/
def getDomainInfo (fs : FS) (app_id : String) : Option DomainBinding :=
  (loadDomains fs).bind (fun d => lookupDomain d app_id)

inductive ServeResult where
  | ok (content : FData)
  | appNotFound
  | fileNotFound
  | serverError
deriving DecidableEq, Repr

/-- The `serve_deployed_app` route.  `filename` is the requested relative
path (`["index.html"]` on the bare route). -/
def serveDeployedApp (fs : FS) (app_id : String) (filename : Path) : ServeResult :=
  let sdir := staticDir app_id
  if pathExists fs sdir then
    let fp := sdir ++ filename
    if pathExists fs fp then
      match getF fs fp with
      | some c => ServeResult.ok c
      | none => ServeResult.serverError
    else
      let ip := sdir ++ ["index.html"]
      if pathExists fs ip then
        match getF fs ip with
        | some c => ServeResult.ok c
        | none => ServeResult.serverError
      else ServeResult.fileNotFound
  else ServeResult.appNotFound

/-! ### Basic lemmas about the filesystem model -/

theorem isPref_refl (a : Path) : isPref a a = true := by
  induction a with
  | nil => rfl
  | cons x xs ih => simp [isPref, ih]

theorem isPref_append (a s : Path) : isPref a (a ++ s) = true := by
  induction a with
  | nil => rfl
  | cons x xs ih => simp [isPref, ih]

theorem append_drop_of_isPref {a q : Path} (h : isPref a q = true) :
    a ++ q.drop a.length = q := by
  induction a generalizing q with
  | nil => simp
  | cons x xs ih =>
    cases q with
    | nil => simp [isPref] at h
    | cons y ys =>
      simp only [isPref] at h
      by_cases hxy : x = y
      · subst hxy
        simp only [if_pos rfl] at h
        simp only [List.cons_append, List.length_cons, List.drop_succ_cons,
          List.cons.injEq, true_and]
        exact ih h
      · simp [if_neg hxy] at h

theorem drop_append_self (a s : Path) : (a ++ s).drop a.length = s := by
  induction a with
  | nil => simp
  | cons x xs ih =>
    simp only [List.cons_append, List.length_cons, List.drop_succ_cons]
    exact ih

theorem append_eq_iff_isPref {a s q : Path} :
    a ++ s = q ↔ isPref a q = true ∧ s = q.drop a.length := by
  constructor
  · intro h
    subst h
    exact ⟨isPref_append a s, (drop_append_self a s).symm⟩
  · rintro ⟨h1, h2⟩
    subst h2
    exact append_drop_of_isPref h1

theorem isPref_length {a q : Path} (h : isPref a q = true) : a.length ≤ q.length := by
  induction a generalizing q with
  | nil => simp
  | cons x xs ih =>
    cases q with
    | nil => simp [isPref] at h
    | cons y ys =>
      simp only [isPref] at h
      by_cases hxy : x = y
      · simp only [if_pos hxy] at h
        simpa using ih h
      · simp [if_neg hxy] at h

theorem isPref_trans {a b c : Path} (h1 : isPref a b = true) (h2 : isPref b c = true) :
    isPref a c = true := by
  induction a generalizing b c with
  | nil => rfl
  | cons x xs ih =>
    cases b with
    | nil => simp [isPref] at h1
    | cons y ys =>
      cases c with
      | nil => simp [isPref] at h2
      | cons z zs =>
        simp only [isPref] at h1 h2 ⊢
        by_cases hxy : x = y
        · subst hxy
          simp only [if_pos rfl] at h1
          by_cases hyz : x = z
          · subst hyz
            simp only [if_pos rfl] at h2 ⊢
            exact ih h1 h2
          · simp [if_neg hyz] at h2
        · simp [if_neg hxy] at h1

theorem isPref_comparable {p q r : Path} (h1 : isPref p r = true) (h2 : isPref q r = true) :
    isPref p q = true ∨ isPref q p = true := by
  induction p generalizing q r with
  | nil => exact Or.inl rfl
  | cons x xs ih =>
    cases q with
    | nil => exact Or.inr rfl
    | cons y ys =>
      cases r with
      | nil => simp [isPref] at h1
      | cons z zs =>
        simp only [isPref] at h1 h2
        by_cases hxz : x = z
        · by_cases hyz : y = z
          · rw [if_pos hxz] at h1
            rw [if_pos hyz] at h2
            have hxy : x = y := hxz.trans hyz.symm
            rcases ih h1 h2 with h | h
            · refine Or.inl ?_
              simp only [isPref, if_pos hxy]
              exact h
            · refine Or.inr ?_
              simp only [isPref, if_pos hxy.symm]
              exact h
          · rw [if_neg hyz] at h2
            exact absurd h2 (by simp)
        · rw [if_neg hxz] at h1
          exact absurd h1 (by simp)

theorem strictPref_isPref {a b : Path} (h : strictPref a b = true) : isPref a b = true := by
  simp only [strictPref, Bool.and_eq_true] at h
  exact h.1

theorem strictPref_of_isPref_strict {p q r : Path} (h1 : isPref p q = true)
    (h2 : strictPref q r = true) : strictPref p r = true := by
  simp only [strictPref, Bool.and_eq_true, decide_eq_true_eq] at h2 ⊢
  exact ⟨isPref_trans h1 h2.1, lt_of_le_of_lt (isPref_length h1) h2.2⟩

theorem strictPref_append {a : Path} {s : Path} (h : s ≠ []) :
    strictPref a (a ++ s) = true := by
  simp only [strictPref, Bool.and_eq_true, decide_eq_true_eq]
  refine ⟨isPref_append a s, ?_⟩
  simp only [List.length_append, Nat.lt_add_right_iff_pos]
  exact List.length_pos.mpr h

theorem getF_mem {fs : FS} {q : Path} {c : FData} (h : getF fs q = some c) :
    (q, c) ∈ fs := by
  induction fs with
  | nil => simp [getF] at h
  | cons e rest ih =>
    obtain ⟨p, d⟩ := e
    have hun : getF ((p, d) :: rest) q = if p = q then some d else getF rest q := rfl
    rw [hun] at h
    by_cases hpq : p = q
    · rw [if_pos hpq] at h
      rw [Option.some.injEq] at h
      subst hpq
      subst h
      exact List.mem_cons_self _ _
    · rw [if_neg hpq] at h
      exact List.mem_cons_of_mem _ (ih h)

theorem dirExists_true_iff {fs : FS} {p : Path} :
    dirExists fs p = true ↔ ∃ e, e ∈ fs ∧ strictPref p e.1 = true := by
  induction fs with
  | nil =>
    constructor
    · intro h
      exact absurd h (by simp [dirExists])
    · rintro ⟨e, he, _⟩
      exact absurd he (List.not_mem_nil e)
  | cons f rest ih =>
    obtain ⟨q, c⟩ := f
    have hun : dirExists ((q, c) :: rest) p
        = if strictPref p q = true then true else dirExists rest p := rfl
    rw [hun]
    by_cases h : strictPref p q = true
    · rw [if_pos h]
      constructor
      · intro _
        exact ⟨(q, c), List.mem_cons_self _ _, h⟩
      · intro _
        rfl
    · rw [if_neg h, ih]
      constructor
      · rintro ⟨e, he, hs⟩
        exact ⟨e, List.mem_cons_of_mem _ he, hs⟩
      · rintro ⟨e, he, hs⟩
        rcases List.mem_cons.mp he with he1 | he1
        · subst he1
          exact absurd hs h
        · exact ⟨e, he1, hs⟩

theorem dirExists_of_getF_strict {fs : FS} {p q : Path} {c : FData}
    (h : getF fs q = some c) (hs : strictPref p q = true) : dirExists fs p = true :=
  dirExists_true_iff.mpr ⟨(q, c), getF_mem h, hs⟩

theorem getF_removeF (fs : FS) (p q : Path) :
    getF (removeF fs p) q = if q = p then none else getF fs q := by
  induction fs with
  | nil =>
    by_cases h : q = p
    · rw [if_pos h]
      rfl
    · rw [if_neg h]
      rfl
  | cons e rest ih =>
    obtain ⟨r, c⟩ := e
    have hun : removeF ((r, c) :: rest) p
        = if r = p then removeF rest p else (r, c) :: removeF rest p := rfl
    have hg : getF ((r, c) :: rest) q = if r = q then some c else getF rest q := rfl
    rw [hun, hg]
    by_cases hrp : r = p
    · rw [if_pos hrp, ih]
      by_cases hqp : q = p
      · rw [if_pos hqp, if_pos hqp]
      · rw [if_neg hqp, if_neg hqp, if_neg]
        intro h
        exact hqp (by rw [← h, hrp])
    · rw [if_neg hrp]
      have hg2 : getF ((r, c) :: removeF rest p) q
          = if r = q then some c else getF (removeF rest p) q := rfl
      rw [hg2, ih]
      by_cases hrq : r = q
      · rw [if_pos hrq, if_pos hrq, if_neg]
        intro h
        exact hrp (by rw [hrq, h])
      · rw [if_neg hrq, if_neg hrq]

theorem getF_writeF (fs : FS) (p : Path) (c : FData) (q : Path) :
    getF (writeF fs p c) q = if q = p then some c else getF fs q := by
  have hun : getF (writeF fs p c) q
      = if p = q then some c else getF (removeF fs p) q := rfl
  rw [hun]
  by_cases h : p = q
  · rw [if_pos h, if_pos h.symm]
  · rw [if_neg h, getF_removeF, if_neg fun hh => h hh.symm, if_neg fun hh => h hh.symm]

theorem getF_rmtreeF (fs : FS) (p q : Path) :
    getF (rmtreeF fs p) q = if isPref p q = true then none else getF fs q := by
  induction fs with
  | nil =>
    by_cases h : isPref p q = true
    · rw [if_pos h]
      rfl
    · rw [if_neg h]
      rfl
  | cons e rest ih =>
    obtain ⟨r, c⟩ := e
    have hun : rmtreeF ((r, c) :: rest) p
        = if isPref p r = true then rmtreeF rest p else (r, c) :: rmtreeF rest p := rfl
    rw [hun]
    by_cases hpr : isPref p r = true
    · rw [if_pos hpr, ih]
      by_cases hpq : isPref p q = true
      · rw [if_pos hpq, if_pos hpq]
      · rw [if_neg hpq, if_neg hpq]
        have : getF ((r, c) :: rest) q = if r = q then some c else getF rest q := rfl
        rw [this, if_neg]
        intro h
        subst h
        exact hpq hpr
    · rw [if_neg hpr]
      have hun2 : getF ((r, c) :: rmtreeF rest p) q
          = if r = q then some c else getF (rmtreeF rest p) q := rfl
      rw [hun2]
      by_cases hrq : r = q
      · subst hrq
        rw [if_pos rfl, if_neg]
        · have : getF ((r, c) :: rest) r = if r = r then some c else getF rest r := rfl
          rw [this, if_pos rfl]
        · exact hpr
      · rw [if_neg hrq, ih]
        by_cases hpq : isPref p q = true
        · rw [if_pos hpq, if_pos hpq]
        · rw [if_neg hpq, if_neg hpq]
          have : getF ((r, c) :: rest) q = if r = q then some c else getF rest q := rfl
          rw [this, if_neg hrq]

theorem mem_rmtreeF {fs : FS} {p : Path} {e : Path × FData} :
    e ∈ rmtreeF fs p ↔ e ∈ fs ∧ isPref p e.1 = false := by
  induction fs with
  | nil =>
    simp [rmtreeF]
  | cons f rest ih =>
    obtain ⟨r, c⟩ := f
    have hun : rmtreeF ((r, c) :: rest) p
        = if isPref p r = true then rmtreeF rest p else (r, c) :: rmtreeF rest p := rfl
    rw [hun]
    by_cases hpr : isPref p r = true
    · rw [if_pos hpr, ih]
      constructor
      · rintro ⟨he, hn⟩
        exact ⟨List.mem_cons_of_mem _ he, hn⟩
      · rintro ⟨he, hn⟩
        rcases List.mem_cons.mp he with he1 | he1
        · subst he1
          rw [hpr] at hn
          exact absurd hn (by simp)
        · exact ⟨he1, hn⟩
    · rw [if_neg hpr]
      constructor
      · intro he
        rcases List.mem_cons.mp he with he1 | he1
        · subst he1
          exact ⟨List.mem_cons_self _ _, by simpa using hpr⟩
        · obtain ⟨he2, hn⟩ := ih.mp he1
          exact ⟨List.mem_cons_of_mem _ he2, hn⟩
      · rintro ⟨he, hn⟩
        rcases List.mem_cons.mp he with he1 | he1
        · subst he1
          exact List.mem_cons_self _ _
        · exact List.mem_cons_of_mem _ (ih.mpr ⟨he1, hn⟩)

theorem isPref_eq_of_length {a b : Path} (h : isPref a b = true) (hl : b.length ≤ a.length) :
    a = b := by
  induction a generalizing b with
  | nil =>
    cases b with
    | nil => rfl
    | cons y ys => simp at hl
  | cons x xs ih =>
    cases b with
    | nil => simp [isPref] at h
    | cons y ys =>
      simp only [isPref] at h
      by_cases hxy : x = y
      · rw [if_pos hxy] at h
        subst hxy
        rw [ih h (by simpa using hl)]
      · rw [if_neg hxy] at h
        exact absurd h (by simp)

theorem strictPref_of_isPref_ne {p q : Path} (h : isPref p q = true) (hne : p ≠ q) :
    strictPref p q = true := by
  simp only [strictPref, Bool.and_eq_true, decide_eq_true_eq]
  refine ⟨h, ?_⟩
  rcases Nat.lt_or_ge p.length q.length with hlt | hge
  · exact hlt
  · exact absurd (isPref_eq_of_length h hge) hne

theorem pathExists_eq_false_iff {fs : FS} {p : Path} :
    pathExists fs p = false ↔ getF fs p = none ∧ dirExists fs p = false := by
  unfold pathExists
  rw [Bool.or_eq_false_iff]
  cases h : getF fs p with
  | none => simp
  | some c => simp [Option.isSome]

theorem getF_append (a b : FS) (q : Path) :
    getF (a ++ b) q = match getF a q with
      | some c => some c
      | none => getF b q := by
  induction a with
  | nil => rfl
  | cons e rest ih =>
    obtain ⟨r, c⟩ := e
    have h1 : getF (((r, c) :: rest) ++ b) q
        = if r = q then some c else getF (rest ++ b) q := rfl
    have h2 : getF ((r, c) :: rest) q = if r = q then some c else getF rest q := rfl
    rw [h1, h2]
    by_cases hrq : r = q
    · rw [if_pos hrq, if_pos hrq]
    · rw [if_neg hrq, if_neg hrq, ih]

theorem getF_rerootF (src dst : Path) (fs : FS) (q : Path) :
    getF (rerootF src dst fs) q =
      if isPref dst q = true then getF fs (src ++ q.drop dst.length) else none := by
  induction fs with
  | nil =>
    by_cases h : isPref dst q = true
    · rw [if_pos h]
      rfl
    · rw [if_neg h]
      rfl
  | cons e rest ih =>
    obtain ⟨p, c⟩ := e
    have hun : rerootF src dst ((p, c) :: rest)
        = if isPref src p = true then
            (dst ++ p.drop src.length, c) :: rerootF src dst rest
          else rerootF src dst rest := rfl
    rw [hun]
    by_cases hsp : isPref src p = true
    · rw [if_pos hsp]
      have hg : getF ((dst ++ p.drop src.length, c) :: rerootF src dst rest) q
          = if dst ++ p.drop src.length = q then some c
            else getF (rerootF src dst rest) q := rfl
      rw [hg, ih]
      by_cases heq : dst ++ p.drop src.length = q
      · have hdq : isPref dst q = true := (append_eq_iff_isPref.mp heq).1
        have hdrop : p.drop src.length = q.drop dst.length := (append_eq_iff_isPref.mp heq).2
        have hp : src ++ q.drop dst.length = p := by
          rw [← hdrop]
          exact append_drop_of_isPref hsp
        rw [if_pos heq, if_pos hdq]
        have hgr : getF ((p, c) :: rest) (src ++ q.drop dst.length)
            = if p = src ++ q.drop dst.length then some c
              else getF rest (src ++ q.drop dst.length) := rfl
        rw [hgr, if_pos hp.symm]
      · rw [if_neg heq]
        by_cases hdq : isPref dst q = true
        · rw [if_pos hdq, if_pos hdq]
          have hgr : getF ((p, c) :: rest) (src ++ q.drop dst.length)
              = if p = src ++ q.drop dst.length then some c
                else getF rest (src ++ q.drop dst.length) := rfl
          rw [hgr, if_neg]
          intro h
          apply heq
          rw [h, drop_append_self]
          exact append_drop_of_isPref hdq
        · rw [if_neg hdq, if_neg hdq]
    · rw [if_neg hsp, ih]
      by_cases hdq : isPref dst q = true
      · rw [if_pos hdq, if_pos hdq]
        have hgr : getF ((p, c) :: rest) (src ++ q.drop dst.length)
            = if p = src ++ q.drop dst.length then some c
              else getF rest (src ++ q.drop dst.length) := rfl
        rw [hgr, if_neg]
        intro h
        exact hsp (h ▸ isPref_append src (q.drop dst.length))
      · rw [if_neg hdq, if_neg hdq]

theorem getF_copytreeF (fs : FS) (src dst q : Path) :
    getF (copytreeF fs src dst) q =
      if isPref dst q = true then
        match getF fs (src ++ q.drop dst.length) with
        | some c => some c
        | none => getF fs q
      else getF fs q := by
  unfold copytreeF
  rw [getF_append, getF_rerootF]
  by_cases h : isPref dst q = true
  · rw [if_pos h, if_pos h]
  · rw [if_neg h, if_neg h]

theorem getF_clearTree (fs : FS) (p q : Path) :
    getF (clearTree fs p) q = if isPref p q = true then none else getF fs q := by
  unfold clearTree
  by_cases hp : pathExists fs p = true
  · rw [if_pos hp, getF_rmtreeF]
  · rw [if_neg hp]
    by_cases hpq : isPref p q = true
    · rw [if_pos hpq]
      obtain ⟨hg, hd⟩ := pathExists_eq_false_iff.mp (Bool.not_eq_true _ ▸ hp)
      cases hq : getF fs q with
      | none => rfl
      | some c =>
        exfalso
        by_cases hqp : q = p
        · subst hqp
          rw [hq] at hg
          cases hg
        · have hs : strictPref p q = true :=
            strictPref_of_isPref_ne hpq fun h => hqp h.symm
          rw [dirExists_of_getF_strict hq hs] at hd
          cases hd
    · rw [if_neg hpq]

theorem mem_clearTree {fs : FS} {p : Path} {e : Path × FData} (h : e ∈ clearTree fs p) :
    e ∈ fs := by
  unfold clearTree at h
  by_cases hp : pathExists fs p = true
  · rw [if_pos hp] at h
    exact (mem_rmtreeF.mp h).1
  · rw [if_neg hp] at h
    exact h

theorem dirExists_clearTree_below {fs : FS} {p q : Path} (h : isPref p q = true) :
    dirExists (clearTree fs p) q = false := by
  by_contra hd
  rw [Bool.not_eq_false] at hd
  obtain ⟨e, he, hs⟩ := dirExists_true_iff.mp hd
  unfold clearTree at he
  by_cases hp : pathExists fs p = true
  · rw [if_pos hp] at he
    obtain ⟨_, hn⟩ := mem_rmtreeF.mp he
    rw [isPref_trans h (strictPref_isPref hs)] at hn
    cases hn
  · rw [if_neg hp] at he
    obtain ⟨_, hdir⟩ := pathExists_eq_false_iff.mp (Bool.not_eq_true _ ▸ hp)
    have : dirExists fs p = true :=
      dirExists_true_iff.mpr ⟨e, he, strictPref_of_isPref_strict h hs⟩
    rw [this] at hdir
    cases hdir

theorem pathExists_clearTree_below {fs : FS} {p q : Path} (h : isPref p q = true) :
    pathExists (clearTree fs p) q = false := by
  rw [pathExists_eq_false_iff]
  exact ⟨by rw [getF_clearTree, if_pos h], dirExists_clearTree_below h⟩

theorem pathExists_clearTree_false {fs : FS} {p q : Path} (h : pathExists fs q = false) :
    pathExists (clearTree fs p) q = false := by
  obtain ⟨hg, hd⟩ := pathExists_eq_false_iff.mp h
  rw [pathExists_eq_false_iff]
  constructor
  · rw [getF_clearTree]
    by_cases hpq : isPref p q = true
    · rw [if_pos hpq]
    · rw [if_neg hpq]
      exact hg
  · by_contra hdc
    rw [Bool.not_eq_false] at hdc
    obtain ⟨e, he, hs⟩ := dirExists_true_iff.mp hdc
    have : dirExists fs q = true := dirExists_true_iff.mpr ⟨e, mem_clearTree he, hs⟩
    rw [this] at hd
    cases hd

theorem getF_writeFiles_notbelow {fs : FS} {root q : Path} {l : List (Path × String)}
    (h : ∀ rel c, (rel, c) ∈ l → root ++ rel ≠ q) :
    getF (writeFiles fs root l) q = getF fs q := by
  induction l generalizing fs with
  | nil => rfl
  | cons e rest ih =>
    obtain ⟨rel, c⟩ := e
    have hun : writeFiles fs root ((rel, c) :: rest)
        = writeFiles (writeF fs (root ++ rel) (FData.text c)) root rest := rfl
    rw [hun, ih fun r' c' hm => h r' c' (List.mem_cons_of_mem _ hm), getF_writeF, if_neg]
    intro hq
    exact h rel c (List.mem_cons_self _ _) hq.symm

theorem getF_writeFiles_mem {fs : FS} {root : Path} {l : List (Path × String)}
    {rel : Path} {c : String} (hnd : (l.map Prod.fst).Nodup) (hmem : (rel, c) ∈ l) :
    getF (writeFiles fs root l) (root ++ rel) = some (FData.text c) := by
  induction l generalizing fs with
  | nil => cases hmem
  | cons e rest ih =>
    obtain ⟨r0, c0⟩ := e
    have hun : writeFiles fs root ((r0, c0) :: rest)
        = writeFiles (writeF fs (root ++ r0) (FData.text c0)) root rest := rfl
    rw [hun]
    simp only [List.map_cons, List.nodup_cons] at hnd
    rcases List.mem_cons.mp hmem with he | he
    · obtain ⟨h1, h2⟩ := Prod.mk.injEq .. ▸ he
      subst h1
      subst h2
      rw [getF_writeFiles_notbelow, getF_writeF, if_pos rfl]
      intro r' c' hm heq
      have hr : r' = rel := by
        have := congrArg (List.drop root.length) heq
        rwa [drop_append_self, drop_append_self] at this
      subst hr
      exact hnd.1 (List.mem_map.mpr ⟨(r', c'), hm, rfl⟩)
    · exact ih hnd.2 he

theorem getF_writeFiles_cases {fs : FS} {root q : Path} {l : List (Path × String)}
    {v : FData} (h : getF (writeFiles fs root l) q = some v) :
    (∃ rel c, (rel, c) ∈ l ∧ q = root ++ rel ∧ v = FData.text c) ∨ getF fs q = some v := by
  induction l generalizing fs with
  | nil => exact Or.inr h
  | cons e rest ih =>
    obtain ⟨rel, c⟩ := e
    have hun : writeFiles fs root ((rel, c) :: rest)
        = writeFiles (writeF fs (root ++ rel) (FData.text c)) root rest := rfl
    rw [hun] at h
    rcases ih h with ⟨r', c', hm, hq, hv⟩ | h2
    · exact Or.inl ⟨r', c', List.mem_cons_of_mem _ hm, hq, hv⟩
    · rw [getF_writeF] at h2
      by_cases heq : q = root ++ rel
      · rw [if_pos heq] at h2
        rw [Option.some.injEq] at h2
        exact Or.inl ⟨rel, c, List.mem_cons_self _ _, heq, h2.symm⟩
      · rw [if_neg heq] at h2
        exact Or.inr h2

theorem isPref_head_ne {x y : String} {xs ys : Path} (h : x ≠ y) :
    isPref (x :: xs) (y :: ys) = false := by
  simp [isPref, h]

theorem subdomainTaken_of_lookup {d : List (String × DomainBinding)} {k : String}
    {b : DomainBinding} {s : String} (hl : lookupDomain d k = some b)
    (hs : b.subdomain = some s) : subdomainTaken d s = true := by
  induction d with
  | nil => simp [lookupDomain] at hl
  | cons e rest ih =>
    obtain ⟨k0, b0⟩ := e
    have hun : lookupDomain ((k0, b0) :: rest) k
        = if k0 = k then some b0 else lookupDomain rest k := rfl
    have hun2 : subdomainTaken ((k0, b0) :: rest) s
        = if b0.subdomain = some s then true else subdomainTaken rest s := rfl
    rw [hun] at hl
    rw [hun2]
    by_cases hk : k0 = k
    · rw [if_pos hk] at hl
      rw [Option.some.injEq] at hl
      subst hl
      rw [if_pos hs]
    · rw [if_neg hk] at hl
      by_cases hb : b0.subdomain = some s
      · rw [if_pos hb]
      · rw [if_neg hb]
        exact ih hl

/-- The fresh binding `register_subdomain` writes for `app_id`. -/
def freshSubdomainBinding (subdomain now : String) : DomainBinding :=
  { subdomain := some subdomain
    full_domain := some (subdomain ++ "." ++ baseDomain)
    registered_at := some now
    dtype := some "subdomain"
    custom_domain := none
    custom_domain_registered_at := none
    custom_domain_verified := none }

theorem registerSubdomain_eq {fs : FS} {d : List (String × DomainBinding)}
    (h : loadDomains fs = some d) (app_id subdomain now : String) :
    registerSubdomain fs app_id subdomain now =
      if subdomainTaken d subdomain then (fs, Except.error "Subdomain already taken")
      else
        (writeF fs domainsPath
          (FData.domains (setDomain d app_id (freshSubdomainBinding subdomain now))),
         Except.ok (subdomain ++ "." ++ baseDomain, subdomain)) := by
  unfold registerSubdomain
  rw [h]
  by_cases ht : subdomainTaken d subdomain = true
  · dsimp only
    rw [if_pos ht, if_pos ht]
  · dsimp only
    rw [if_neg ht, if_neg ht]
    rfl

theorem loadDomains_writeF (fs : FS) (dd : List (String × DomainBinding)) :
    loadDomains (writeF fs domainsPath (FData.domains dd)) = some dd := by
  unfold loadDomains
  rw [getF_writeF, if_pos rfl]

/-- After a successful registration the stored dict maps `app_id` to the
fresh binding. -/
theorem loadDomains_after_register {fs : FS} {d : List (String × DomainBinding)}
    (h : loadDomains fs = some d) (app_id subdomain now : String)
    (ht : subdomainTaken d subdomain = false) :
    loadDomains (registerSubdomain fs app_id subdomain now).1
      = some (setDomain d app_id (freshSubdomainBinding subdomain now)) := by
  rw [registerSubdomain_eq h, if_neg (by rw [ht]; exact Bool.false_ne_true)]
  exact loadDomains_writeF fs _

/-- C1 (amended): `registerSubdomain(app_id, subdomain)` fails with
`SubdomainTaken` if and only if some existing binding — whether another
app's or `app_id`'s own — holds that exact subdomain string
(case-sensitive).  For every pair of distinct app ids registering the same
fresh subdomain one after the other, the first succeeds and the second
fails with `SubdomainTaken`.  In particular re-registering a subdomain
already held by `app_id`'s own binding also FAILS with `SubdomainTaken`
(the uniqueness scan does not exempt `app_id`'s own binding). -/
theorem c1_subdomain_uniqueness_scan {fs : FS} {d : List (String × DomainBinding)}
    (h : loadDomains fs = some d) (a b s now now2 : String) (hab : a ≠ b) :
    ((registerSubdomain fs a s now).2 = Except.error "Subdomain already taken"
        ↔ subdomainTaken d s = true)
    ∧ (∀ bind, getDomainInfo fs a = some bind → bind.subdomain = some s →
        (registerSubdomain fs a s now).2 = Except.error "Subdomain already taken")
    ∧ (subdomainTaken d s = false →
        (registerSubdomain fs a s now).2 = Except.ok (s ++ "." ++ baseDomain, s)
        ∧ (registerSubdomain (registerSubdomain fs a s now).1 b s now2).2
            = Except.error "Subdomain already taken") := by
  refine ⟨?_, ?_, ?_⟩
  · rw [registerSubdomain_eq h]
    by_cases ht : subdomainTaken d s = true
    · rw [if_pos ht]
      simp [ht]
    · rw [if_neg ht]
      constructor
      · intro hc
        exact absurd hc (by simp)
      · intro hc
        exact absurd hc ht
  · intro bind hb hs
    unfold getDomainInfo at hb
    rw [h] at hb
    have ht : subdomainTaken d s = true := subdomainTaken_of_lookup hb hs
    rw [registerSubdomain_eq h, if_pos ht]
  · intro ht
    have hne : ¬ (subdomainTaken d s = true) := by
      rw [ht]
      exact Bool.false_ne_true
    constructor
    · rw [registerSubdomain_eq h, if_neg hne]
    · have h2 := loadDomains_after_register h a s now ht
      rw [registerSubdomain_eq h2, if_pos]
      have hun : subdomainTaken
          (setDomain d a (freshSubdomainBinding s now)) s
          = if (freshSubdomainBinding s now).subdomain = some s then true
            else subdomainTaken (d.filter (fun e => e.1 ≠ a)) s := rfl
      rw [hun, if_pos (show (freshSubdomainBinding s now).subdomain = some s from rfl)]

/-- C1 witness: concrete application of the amended theorem. -/
theorem c1_subdomain_uniqueness_scan_witness :
    loadDomains [(domainsPath, FData.domains [])] = some []
    ∧ ("a" : String) ≠ "b"
    ∧ subdomainTaken ([] : List (String × DomainBinding)) "s" = false
    ∧ (registerSubdomain [(domainsPath, FData.domains [])] "a" "s" "t1").2
        = Except.ok ("s." ++ baseDomain, "s")
    ∧ (registerSubdomain
        (registerSubdomain [(domainsPath, FData.domains [])] "a" "s" "t1").1
          "b" "s" "t2").2 = Except.error "Subdomain already taken" := by
  have h0 : loadDomains [(domainsPath, FData.domains [])] = some [] := rfl
  have hp := c1_subdomain_uniqueness_scan h0 "a" "b" "s" "t1" "t2" (by decide)
  exact ⟨h0, by decide, rfl, (hp.2.2 rfl).1, (hp.2.2 rfl).2⟩

/-- C1 counterexample: the claim as stated is false.  App `"a"` registers
subdomain `"s"`; its own binding then holds `"s"`, yet re-registering
`"s"` for the very same app id `"a"` fails with `SubdomainTaken`, where
the claim requires re-registration of one's own subdomain to succeed. -/
theorem c1_counterexample :
    getDomainInfo (registerSubdomain [(domainsPath, FData.domains [])] "a" "s" "t1").1 "a"
        = some (freshSubdomainBinding "s" "t1")
    ∧ (registerSubdomain
        (registerSubdomain [(domainsPath, FData.domains [])] "a" "s" "t1").1
          "a" "s" "t2").2 = Except.error "Subdomain already taken" := by
  exact ⟨rfl, rfl⟩

/-- C10: a successful `registerSubdomain(app_id, subdomain)` replaces
`app_id`'s entire Domain Registry binding with a fresh binding containing
only the subdomain fields; any `custom_domain`,
`custom_domain_registered_at` and `custom_domain_verified` fields
previously set by `registerCustomDomain` are erased, not preserved. -/
theorem c10_register_subdomain_replaces_binding {fs : FS}
    {d : List (String × DomainBinding)} (h : loadDomains fs = some d)
    {a s now : String} {res : String × String}
    (hok : (registerSubdomain fs a s now).2 = Except.ok res) :
    getDomainInfo (registerSubdomain fs a s now).1 a
      = some (freshSubdomainBinding s now) := by
  rw [registerSubdomain_eq h] at hok ⊢
  by_cases ht : subdomainTaken d s = true
  · rw [if_pos ht] at hok
    exact absurd hok (by simp)
  · rw [if_neg ht] at hok ⊢
    unfold getDomainInfo
    rw [loadDomains_writeF]
    have hun : lookupDomain (setDomain d a (freshSubdomainBinding s now)) a
        = if a = a then some (freshSubdomainBinding s now)
          else lookupDomain (d.filter (fun e => e.1 ≠ a)) a := rfl
    rw [Option.some_bind, hun, if_pos rfl]

/-- C10 witness: register a custom domain for `"a"`, then successfully
register a subdomain; the custom-domain fields are gone. -/
theorem c10_register_subdomain_replaces_binding_witness :
    (registerSubdomain
        (registerCustomDomain [(domainsPath, FData.domains [])] "a" "shop.example.com" "t1").1
        "a" "s" "t2").2 = Except.ok ("s." ++ baseDomain, "s")
    ∧ getDomainInfo
        (registerCustomDomain [(domainsPath, FData.domains [])] "a" "shop.example.com" "t1").1
        "a" = some { emptyBinding with
                      custom_domain := some "shop.example.com"
                      custom_domain_registered_at := some "t1"
                      custom_domain_verified := some false }
    ∧ getDomainInfo
        (registerSubdomain
          (registerCustomDomain [(domainsPath, FData.domains [])] "a" "shop.example.com" "t1").1
          "a" "s" "t2").1 "a" = some (freshSubdomainBinding "s" "t2") := by
  refine ⟨rfl, rfl, ?_⟩
  exact c10_register_subdomain_replaces_binding
    (show loadDomains
        (registerCustomDomain [(domainsPath, FData.domains [])] "a" "shop.example.com" "t1").1
      = some [("a", { emptyBinding with
                      custom_domain := some "shop.example.com"
                      custom_domain_registered_at := some "t1"
                      custom_domain_verified := some false })] from rfl)
    (show _ = Except.ok ("s." ++ baseDomain, "s") from rfl)

/-- A build environment in which both toolchain steps succeed instantly
and leave no files (unused by the static-app code paths). -/
def envOk : BuildEnv :=
  { installR := { returncode := 0, stdout := "", stderr := "", duration := 0 }
    buildR := { returncode := 0, stdout := "", stderr := "", duration := 0 }
    outputFiles := [] }

theorem isPref_appsDir_metadata (aid : String) :
    isPref (appsDir aid) (metadataPath aid) = true :=
  isPref_append (appsDir aid) ["deployment.json"]

/-- C3 (amended): `delete(app_id)` removes the source directory and the
published directory, and — because the Deployment Registry record is the
file `deployment.json` stored INSIDE the source directory — it removes the
registry record with them: after delete, `get(app_id)` on the Deployment
Registry returns nothing.  The Domain Registry binding alone is left
unchanged. -/
theorem c3_delete_removes_registry_record (fs : FS) (aid : String) :
    pathExists (deleteDeployment fs aid).1 (appsDir aid) = false
    ∧ pathExists (deleteDeployment fs aid).1 (staticDir aid) = false
    ∧ getDeploymentInfo (deleteDeployment fs aid).1 aid = none
    ∧ getDomainInfo (deleteDeployment fs aid).1 aid = getDomainInfo fs aid
    ∧ (deleteDeployment fs aid).2 = Except.ok "Deployment deleted successfully" := by
  have hd : (deleteDeployment fs aid).1
      = clearTree (clearTree fs (appsDir aid)) (staticDir aid) := rfl
  have hsm : isPref (staticDir aid) (metadataPath aid) = false :=
    isPref_head_ne (by decide)
  have ham : isPref (appsDir aid) (metadataPath aid) = true :=
    isPref_appsDir_metadata aid
  have hsd : isPref (staticDir aid) domainsPath = false := isPref_head_ne (by decide)
  have had : isPref (appsDir aid) domainsPath = false := isPref_head_ne (by decide)
  refine ⟨?_, ?_, ?_, ?_, rfl⟩
  · rw [hd]
    exact pathExists_clearTree_false (pathExists_clearTree_below (isPref_refl _))
  · rw [hd]
    exact pathExists_clearTree_below (isPref_refl _)
  · unfold getDeploymentInfo
    rw [hd, getF_clearTree, if_neg (by rw [hsm]; exact Bool.false_ne_true),
      getF_clearTree, if_pos ham]
  · unfold getDomainInfo loadDomains
    rw [hd, getF_clearTree, if_neg (by rw [hsd]; exact Bool.false_ne_true),
      getF_clearTree, if_neg (by rw [had]; exact Bool.false_ne_true)]

/-- C3 counterexample: deploy a static app `"x"`, then delete it.  The
claim says the Deployment Registry record survives delete, but the record
lives at `apps/x/deployment.json`, inside the removed source tree: after
delete, `get_deployment_info` returns nothing where the claim requires
the old record. -/
theorem c3_counterexample :
    getDeploymentInfo
        (deployApp [] envOk "u" "t"
          { app_id := some "x", app_name := none, app_type := some "static",
            files := [(["index.html"], "hi")] }).1 "x"
      = some (mkConfig "x" "app-x" "static" "t" [(["index.html"], "hi")])
    ∧ getDeploymentInfo
        (deleteDeployment
          (deployApp [] envOk "u" "t"
            { app_id := some "x", app_name := none, app_type := some "static",
              files := [(["index.html"], "hi")] }).1 "x").1 "x"
      = none := by
  exact ⟨rfl, rfl⟩

/-- C5: `serve(app_id, path)` returns `AppNotFound` when no published tree
exists for `app_id`; otherwise it returns the file at the requested path
verbatim when that path holds a file, falls back to the root document
`index.html` when the requested path does not exist, and returns
`FileNotFound` when neither the requested path nor the root document
exists. -/
theorem c5_serve_spa_fallback (fs : FS) (aid : String) (p : Path) :
    (pathExists fs (staticDir aid) = false →
        serveDeployedApp fs aid p = ServeResult.appNotFound)
    ∧ (pathExists fs (staticDir aid) = true →
        ∀ c, getF fs (staticDir aid ++ p) = some c →
        serveDeployedApp fs aid p = ServeResult.ok c)
    ∧ (pathExists fs (staticDir aid) = true →
        pathExists fs (staticDir aid ++ p) = false →
        ∀ c, getF fs (staticDir aid ++ ["index.html"]) = some c →
        serveDeployedApp fs aid p = ServeResult.ok c)
    ∧ (pathExists fs (staticDir aid) = true →
        pathExists fs (staticDir aid ++ p) = false →
        pathExists fs (staticDir aid ++ ["index.html"]) = false →
        serveDeployedApp fs aid p = ServeResult.fileNotFound) := by
  unfold serveDeployedApp
  refine ⟨?_, ?_, ?_, ?_⟩
  · intro h
    rw [if_neg (by rw [h]; exact Bool.false_ne_true)]
  · intro h1 c hc
    have hp : pathExists fs (staticDir aid ++ p) = true := by
      unfold pathExists
      rw [hc]
      rfl
    rw [if_pos h1, if_pos hp, hc]
  · intro h1 h2 c hc
    have hp : pathExists fs (staticDir aid ++ ["index.html"]) = true := by
      unfold pathExists
      rw [hc]
      rfl
    rw [if_pos h1, if_neg (by rw [h2]; exact Bool.false_ne_true), if_pos hp, hc]
  · intro h1 h2 h3
    rw [if_pos h1, if_neg (by rw [h2]; exact Bool.false_ne_true),
      if_neg (by rw [h3]; exact Bool.false_ne_true)]

/-- C5 witness: all four serve outcomes at concrete published trees. -/
theorem c5_serve_spa_fallback_witness :
    serveDeployedApp [] "x" ["a.html"] = ServeResult.appNotFound
    ∧ serveDeployedApp
        [(["static", "x", "a.html"], FData.text "A"),
         (["static", "x", "index.html"], FData.text "IDX")] "x" ["a.html"]
        = ServeResult.ok (FData.text "A")
    ∧ serveDeployedApp
        [(["static", "x", "a.html"], FData.text "A"),
         (["static", "x", "index.html"], FData.text "IDX")] "x" ["missing.html"]
        = ServeResult.ok (FData.text "IDX")
    ∧ serveDeployedApp
        [(["static", "x", "a.html"], FData.text "A")] "x" ["missing.html"]
        = ServeResult.fileNotFound := by
  refine ⟨?_, ?_, ?_, ?_⟩
  · exact (c5_serve_spa_fallback [] "x" ["a.html"]).1 rfl
  · exact (c5_serve_spa_fallback
      [(["static", "x", "a.html"], FData.text "A"),
       (["static", "x", "index.html"], FData.text "IDX")] "x" ["a.html"]).2.1
      rfl (FData.text "A") rfl
  · exact (c5_serve_spa_fallback
      [(["static", "x", "a.html"], FData.text "A"),
       (["static", "x", "index.html"], FData.text "IDX")] "x" ["missing.html"]).2.2.1
      rfl rfl (FData.text "IDX") rfl
  · exact (c5_serve_spa_fallback
      [(["static", "x", "a.html"], FData.text "A")] "x" ["missing.html"]).2.2.2
      rfl rfl rfl

theorem outputs_ne_metadata {env : BuildEnv} {aid : String}
    (hout : ∀ c, (["deployment.json"], c) ∉ env.outputFiles) :
    ∀ rel c, (rel, c) ∈ env.outputFiles → appsDir aid ++ rel ≠ metadataPath aid := by
  intro rel c hm he
  have hr : rel = ["deployment.json"] := by
    have h2 := congrArg (List.drop (appsDir aid).length) he
    rwa [drop_append_self,
      show metadataPath aid = appsDir aid ++ ["deployment.json"] from rfl,
      drop_append_self] at h2
  subst hr
  exact hout c hm

theorem isPref_staticDir_metadata (aid : String) :
    isPref (staticDir aid) (metadataPath aid) = false :=
  isPref_head_ne (by decide)

theorem getF_postBuildFS_metadata {fs : FS} {env : BuildEnv} {aid : String}
    (hout : ∀ c, (["deployment.json"], c) ∉ env.outputFiles) :
    getF (postBuildFS fs env aid) (metadataPath aid) = getF fs (metadataPath aid) := by
  unfold postBuildFS
  rw [getF_clearTree,
    if_neg (by rw [isPref_staticDir_metadata]; exact Bool.false_ne_true),
    getF_writeFiles_notbelow (outputs_ne_metadata hout)]

theorem getF_buildReactApp_metadata {fs : FS} {env : BuildEnv} {aid : String}
    (hout : ∀ c, (["deployment.json"], c) ∉ env.outputFiles) :
    getF (buildReactApp fs env aid).1 (metadataPath aid) = getF fs (metadataPath aid) := by
  unfold buildReactApp
  dsimp only
  split_ifs with h1 h2 h3 h4 h5 h6
  · rfl
  · rfl
  · rfl
  · rfl
  · dsimp only
    rw [getF_copytreeF,
      if_neg (by rw [isPref_staticDir_metadata]; exact Bool.false_ne_true),
      getF_postBuildFS_metadata hout]
  · dsimp only
    rw [getF_copytreeF,
      if_neg (by rw [isPref_staticDir_metadata]; exact Bool.false_ne_true),
      getF_postBuildFS_metadata hout]
  · dsimp only
    exact getF_postBuildFS_metadata hout

theorem deployApp_static_eq {fs : FS} {env : BuildEnv} {fresh now : String} {d : AppData}
    (hd : d.app_type = some "static") :
    deployApp fs env fresh now d
      = (copytreeF (clearTree (preBranchFS fs fresh now d) (staticDir (effAppId d fresh)))
           (appsDir (effAppId d fresh)) (staticDir (effAppId d fresh)),
         Except.ok (deployConfig fresh now d)) := by
  unfold deployApp
  rw [hd]
  dsimp only [Option.getD]
  rw [if_pos (Or.inl rfl)]

theorem deployApp_react_fst {fs : FS} {env : BuildEnv} {fresh now : String} {d : AppData}
    (hd : d.app_type = some "react_app") :
    (deployApp fs env fresh now d).1
      = (buildReactApp (preBranchFS fs fresh now d) env (effAppId d fresh)).1 := by
  unfold deployApp
  rw [hd]
  dsimp only [Option.getD]
  rw [if_neg (by decide), if_pos (show ("react_app" : String) = "react_app" from rfl)]
  generalize buildReactApp (preBranchFS fs fresh now d) env (effAppId d fresh) = R
  obtain ⟨fs4, r⟩ := R
  cases r
  · rfl
  · rfl

theorem deployApp_react_err {fs : FS} {env : BuildEnv} {fresh now : String} {d : AppData}
    {e : String} (hd : d.app_type = some "react_app")
    (he : (buildReactApp (preBranchFS fs fresh now d) env (effAppId d fresh)).2
        = Except.error e) :
    (deployApp fs env fresh now d).2 = Except.error e := by
  unfold deployApp
  rw [hd]
  dsimp only [Option.getD]
  rw [if_neg (by decide), if_pos (show ("react_app" : String) = "react_app" from rfl)]
  generalize hB : buildReactApp (preBranchFS fs fresh now d) env (effAppId d fresh) = R at he ⊢
  obtain ⟨fs4, r⟩ := R
  cases r with
  | error e2 =>
    dsimp only
    dsimp only at he
    injection he with h
    rw [h]
  | ok bo => simp at he

theorem getDeploymentInfo_deployApp_react {fs : FS} {env : BuildEnv}
    {fresh now : String} {d : AppData} (hd : d.app_type = some "react_app")
    (hout : ∀ c, (["deployment.json"], c) ∉ env.outputFiles) :
    getDeploymentInfo (deployApp fs env fresh now d).1 (effAppId d fresh)
      = some (deployConfig fresh now d) := by
  rw [getDeploymentInfo, deployApp_react_fst hd, getF_buildReactApp_metadata hout]
  unfold preBranchFS saveDeploymentMetadata
  rw [getF_writeF, if_pos rfl]

theorem buildReactApp_success_eq {fs : FS} {env : BuildEnv} {aid : String}
    (hi1 : env.installR.duration ≤ npmTimeout) (hi2 : env.installR.returncode = 0)
    (hb1 : env.buildR.duration ≤ npmTimeout) (hb2 : env.buildR.returncode = 0) :
    buildReactApp fs env aid =
      if pathExists (postBuildFS fs env aid) (appsDir aid ++ ["build"]) then
        (copytreeF (postBuildFS fs env aid) (appsDir aid ++ ["build"]) (staticDir aid),
         Except.ok (env.buildR.stdout, staticDir aid))
      else if pathExists (postBuildFS fs env aid) (appsDir aid ++ ["dist"]) then
        (copytreeF (postBuildFS fs env aid) (appsDir aid ++ ["dist"]) (staticDir aid),
         Except.ok (env.buildR.stdout, staticDir aid))
      else (postBuildFS fs env aid, Except.error "Build directory not found") := by
  unfold buildReactApp
  rw [if_neg (not_lt.mpr hi1), if_neg (fun h => h hi2), if_neg (not_lt.mpr hb1),
    if_neg (fun h => h hb2)]

theorem getF_copytree_clearTree (x : FS) (sdir src rel : Path) :
    getF (copytreeF (clearTree x sdir) src sdir) (sdir ++ rel)
      = getF (clearTree x sdir) (src ++ rel) := by
  rw [getF_copytreeF, if_pos (isPref_append sdir rel), drop_append_self]
  cases h2 : getF (clearTree x sdir) (src ++ rel) with
  | some c => rfl
  | none =>
    dsimp only
    rw [getF_clearTree, if_pos (isPref_append sdir rel)]

/-- C8: the Build Executor runs the dependency-install step and then the
build step, each under a 300-second timeout (`npmTimeout`); it fails with
a build failure carrying the step's stderr if either step exits non-zero
(an install failure preempts the build step entirely), fails with the
timeout error if either step exceeds the timeout, and on success searches
the candidate output directories in the fixed order `build` then `dist`,
publishing the first that exists and failing with `OutputNotFound`
(`"Build directory not found"`) if neither exists. -/
theorem c8_build_executor_contract (fs : FS) (env : BuildEnv) (aid : String) :
    npmTimeout = 300
    ∧ (env.installR.duration > npmTimeout →
        buildReactApp fs env aid = (fs, Except.error "Build process timed out"))
    ∧ (env.installR.duration ≤ npmTimeout → env.installR.returncode ≠ 0 →
        buildReactApp fs env aid
          = (fs, Except.error ("Failed to install dependencies: " ++ env.installR.stderr)))
    ∧ (env.installR.duration ≤ npmTimeout → env.installR.returncode = 0 →
        env.buildR.duration > npmTimeout →
        buildReactApp fs env aid = (fs, Except.error "Build process timed out"))
    ∧ (env.installR.duration ≤ npmTimeout → env.installR.returncode = 0 →
        env.buildR.duration ≤ npmTimeout → env.buildR.returncode ≠ 0 →
        buildReactApp fs env aid
          = (fs, Except.error ("Failed to build app: " ++ env.buildR.stderr)))
    ∧ (env.installR.duration ≤ npmTimeout → env.installR.returncode = 0 →
        env.buildR.duration ≤ npmTimeout → env.buildR.returncode = 0 →
        (pathExists (postBuildFS fs env aid) (appsDir aid ++ ["build"]) = true →
            (buildReactApp fs env aid).2 = Except.ok (env.buildR.stdout, staticDir aid)
            ∧ ∀ rel, getF (buildReactApp fs env aid).1 (staticDir aid ++ rel)
                = getF (postBuildFS fs env aid) (appsDir aid ++ ["build"] ++ rel))
        ∧ (pathExists (postBuildFS fs env aid) (appsDir aid ++ ["build"]) = false →
            pathExists (postBuildFS fs env aid) (appsDir aid ++ ["dist"]) = true →
            (buildReactApp fs env aid).2 = Except.ok (env.buildR.stdout, staticDir aid)
            ∧ ∀ rel, getF (buildReactApp fs env aid).1 (staticDir aid ++ rel)
                = getF (postBuildFS fs env aid) (appsDir aid ++ ["dist"] ++ rel))
        ∧ (pathExists (postBuildFS fs env aid) (appsDir aid ++ ["build"]) = false →
            pathExists (postBuildFS fs env aid) (appsDir aid ++ ["dist"]) = false →
            buildReactApp fs env aid
              = (postBuildFS fs env aid, Except.error "Build directory not found"))) := by
  refine ⟨rfl, ?_, ?_, ?_, ?_, ?_⟩
  · intro h1
    unfold buildReactApp
    rw [if_pos h1]
  · intro h1 h2
    unfold buildReactApp
    rw [if_neg (not_lt.mpr h1), if_pos h2]
  · intro h1 h2 h3
    unfold buildReactApp
    rw [if_neg (not_lt.mpr h1), if_neg (fun h => h h2), if_pos h3]
  · intro h1 h2 h3 h4
    unfold buildReactApp
    rw [if_neg (not_lt.mpr h1), if_neg (fun h => h h2), if_neg (not_lt.mpr h3), if_pos h4]
  · intro h1 h2 h3 h4
    refine ⟨?_, ?_, ?_⟩
    · intro hb
      rw [buildReactApp_success_eq h1 h2 h3 h4, if_pos hb]
      refine ⟨rfl, ?_⟩
      intro rel
      exact getF_copytree_clearTree _ (staticDir aid) (appsDir aid ++ ["build"]) rel
    · intro hbn hd
      rw [buildReactApp_success_eq h1 h2 h3 h4,
        if_neg (by rw [hbn]; exact Bool.false_ne_true), if_pos hd]
      refine ⟨rfl, ?_⟩
      intro rel
      exact getF_copytree_clearTree _ (staticDir aid) (appsDir aid ++ ["dist"]) rel
    · intro hbn hdn
      rw [buildReactApp_success_eq h1 h2 h3 h4,
        if_neg (by rw [hbn]; exact Bool.false_ne_true),
        if_neg (by rw [hdn]; exact Bool.false_ne_true)]

/-- Build environments used to exercise the Build Executor contract. -/
def envInstallTimeout : BuildEnv :=
  { installR := { returncode := 0, stdout := "", stderr := "", duration := 301 }
    buildR := { returncode := 0, stdout := "", stderr := "", duration := 0 }
    outputFiles := [] }

def envInstallFail : BuildEnv :=
  { installR := { returncode := 1, stdout := "", stderr := "boom", duration := 0 }
    buildR := { returncode := 0, stdout := "", stderr := "", duration := 0 }
    outputFiles := [] }

def envBuildTimeout : BuildEnv :=
  { installR := { returncode := 0, stdout := "", stderr := "", duration := 0 }
    buildR := { returncode := 0, stdout := "", stderr := "", duration := 301 }
    outputFiles := [] }

def envBuildFail : BuildEnv :=
  { installR := { returncode := 0, stdout := "", stderr := "", duration := 0 }
    buildR := { returncode := 2, stdout := "", stderr := "berr", duration := 0 }
    outputFiles := [] }

def envBuildOut : BuildEnv :=
  { installR := { returncode := 0, stdout := "", stderr := "", duration := 0 }
    buildR := { returncode := 0, stdout := "", stderr := "", duration := 0 }
    outputFiles := [(["build", "index.html"], "B")] }

def envDistOut : BuildEnv :=
  { installR := { returncode := 0, stdout := "", stderr := "", duration := 0 }
    buildR := { returncode := 0, stdout := "", stderr := "", duration := 0 }
    outputFiles := [(["dist", "index.html"], "D")] }

/-- C8 witness: each contract case at a concrete environment. -/
theorem c8_build_executor_contract_witness :
    buildReactApp [] envInstallTimeout "x" = ([], Except.error "Build process timed out")
    ∧ buildReactApp [] envInstallFail "x"
        = ([], Except.error ("Failed to install dependencies: " ++ "boom"))
    ∧ buildReactApp [] envBuildTimeout "x" = ([], Except.error "Build process timed out")
    ∧ buildReactApp [] envBuildFail "x"
        = ([], Except.error ("Failed to build app: " ++ "berr"))
    ∧ (buildReactApp [] envBuildOut "x").2 = Except.ok ("", staticDir "x")
    ∧ getF (buildReactApp [] envBuildOut "x").1 (staticDir "x" ++ ["index.html"])
        = some (FData.text "B")
    ∧ (buildReactApp [] envDistOut "x").2 = Except.ok ("", staticDir "x")
    ∧ buildReactApp [] envOk "x"
        = (postBuildFS [] envOk "x", Except.error "Build directory not found") := by
  refine ⟨?_, ?_, ?_, ?_, ?_, ?_, ?_, ?_⟩
  · exact (c8_build_executor_contract [] envInstallTimeout "x").2.1 (by decide)
  · exact (c8_build_executor_contract [] envInstallFail "x").2.2.1 (by decide) (by decide)
  · exact (c8_build_executor_contract [] envBuildTimeout "x").2.2.2.1
      (by decide) (by decide) (by decide)
  · exact (c8_build_executor_contract [] envBuildFail "x").2.2.2.2.1
      (by decide) (by decide) (by decide) (by decide)
  · exact (((c8_build_executor_contract [] envBuildOut "x").2.2.2.2.2
      (by decide) (by decide) (by decide) (by decide)).1 rfl).1
  · exact ((((c8_build_executor_contract [] envBuildOut "x").2.2.2.2.2
      (by decide) (by decide) (by decide) (by decide)).1 rfl).2 ["index.html"]).trans rfl
  · exact (((c8_build_executor_contract [] envDistOut "x").2.2.2.2.2
      (by decide) (by decide) (by decide) (by decide)).2.1 rfl rfl).1
  · exact ((c8_build_executor_contract [] envOk "x").2.2.2.2.2
      (by decide) (by decide) (by decide) (by decide)).2.2 rfl rfl

/-- C9: when both toolchain steps succeed but neither a `build` nor a
`dist` output directory exists, `_build_react_app` returns the
`"Build directory not found"` error, but the previously published tree for
the app was already deleted before the output-directory check: the app is
left with no published tree at all and `serve` answers `AppNotFound` for
every path. -/
theorem c9_output_not_found_unpublishes (fs : FS) (env : BuildEnv) (aid : String)
    (hprev : pathExists fs (staticDir aid) = true)
    (hi1 : env.installR.duration ≤ npmTimeout) (hi2 : env.installR.returncode = 0)
    (hb1 : env.buildR.duration ≤ npmTimeout) (hb2 : env.buildR.returncode = 0)
    (hbn : pathExists (postBuildFS fs env aid) (appsDir aid ++ ["build"]) = false)
    (hdn : pathExists (postBuildFS fs env aid) (appsDir aid ++ ["dist"]) = false) :
    (buildReactApp fs env aid).2 = Except.error "Build directory not found"
    ∧ pathExists (buildReactApp fs env aid).1 (staticDir aid) = false
    ∧ ∀ p, serveDeployedApp (buildReactApp fs env aid).1 aid p
        = ServeResult.appNotFound := by
  have heq : buildReactApp fs env aid
      = (postBuildFS fs env aid, Except.error "Build directory not found") := by
    rw [buildReactApp_success_eq hi1 hi2 hb1 hb2,
      if_neg (by rw [hbn]; exact Bool.false_ne_true),
      if_neg (by rw [hdn]; exact Bool.false_ne_true)]
  have hgone : pathExists (buildReactApp fs env aid).1 (staticDir aid) = false := by
    rw [heq]
    exact pathExists_clearTree_below (isPref_refl _)
  refine ⟨by rw [heq], hgone, ?_⟩
  intro p
  unfold serveDeployedApp
  rw [if_neg (by rw [hgone]; exact Bool.false_ne_true)]

/-- C9 witness: an app serving `OLD` content loses its published tree when
a successful build produces no output directory. -/
theorem c9_output_not_found_unpublishes_witness :
    pathExists [(["static", "x", "index.html"], FData.text "OLD")] (staticDir "x") = true
    ∧ (buildReactApp [(["static", "x", "index.html"], FData.text "OLD")] envOk "x").2
        = Except.error "Build directory not found"
    ∧ serveDeployedApp
        (buildReactApp [(["static", "x", "index.html"], FData.text "OLD")] envOk "x").1
        "x" ["index.html"] = ServeResult.appNotFound := by
  have h := c9_output_not_found_unpublishes
    [(["static", "x", "index.html"], FData.text "OLD")] envOk "x"
    rfl (by decide) (by decide) (by decide) (by decide) rfl rfl
  exact ⟨rfl, h.1, h.2.2 ["index.html"]⟩

/-- C2 (amended): in the Deploy pipeline the Deployment Registry record is
created BEFORE the publish/build stage: the stages run write source tree →
record → (build + publish for compiled apps).  Consequently, for a
compiled (`react_app`) deploy whose install/build stage fails, the
pipeline returns that first failure, but the Deployment Registry record
for that deploy HAS been persisted (provided the toolchain did not itself
overwrite `deployment.json`). -/
theorem c2_record_persisted_before_build {fs : FS} {env : BuildEnv}
    {fresh now : String} {d : AppData} (hd : d.app_type = some "react_app")
    (hout : ∀ c, (["deployment.json"], c) ∉ env.outputFiles) :
    getDeploymentInfo (deployApp fs env fresh now d).1 (effAppId d fresh)
      = some (deployConfig fresh now d)
    ∧ (env.installR.duration ≤ npmTimeout → env.installR.returncode ≠ 0 →
        (deployApp fs env fresh now d).2
          = Except.error ("Failed to install dependencies: " ++ env.installR.stderr)) := by
  constructor
  · exact getDeploymentInfo_deployApp_react hd hout
  · intro h1 h2
    apply deployApp_react_err hd
    unfold buildReactApp
    rw [if_neg (not_lt.mpr h1), if_pos h2]

/-- Request body used in the React-deploy scenarios. -/
def dReact : AppData :=
  { app_id := some "x", app_name := none, app_type := some "react_app",
    files := [(["package.json"], "pkg")] }

/-- C2 witness: a failing install still leaves the registry record. -/
theorem c2_record_persisted_before_build_witness :
    dReact.app_type = some "react_app"
    ∧ getDeploymentInfo (deployApp [] envInstallFail "u" "t" dReact).1 "x"
        = some (deployConfig "u" "t" dReact)
    ∧ (deployApp [] envInstallFail "u" "t" dReact).2
        = Except.error ("Failed to install dependencies: " ++ "boom") := by
  have h := @c2_record_persisted_before_build [] envInstallFail "u" "t" dReact rfl
    (fun c hc => absurd hc (List.not_mem_nil _))
  exact ⟨rfl, h.1, h.2 (by decide) (by decide)⟩

/-- C2 counterexample: the claim as stated is false.  For a react deploy
whose dependency-install step fails, the pipeline does return that first
failure, but a Deployment Registry record for the deploy IS persisted
(`deployment.json` is written before the build stage runs), where the
claim requires that no record be persisted. -/
theorem c2_counterexample :
    (deployApp [] envInstallFail "u" "t" dReact).2
        = Except.error "Failed to install dependencies: boom"
    ∧ getDeploymentInfo (deployApp [] envInstallFail "u" "t" dReact).1 "x"
        = some (deployConfig "u" "t" dReact) := by
  exact ⟨rfl, rfl⟩

theorem append_ne_of_isPref_false {a q : Path} (h : isPref a q = false) (s : Path) :
    a ++ s ≠ q := by
  intro he
  rw [← he, isPref_append] at h
  cases h

theorem isPref_cons_inv {x : String} {xs b : Path} (h : isPref (x :: xs) b = true) :
    ∃ bs, b = x :: bs := by
  cases b with
  | nil => simp [isPref] at h
  | cons y ys =>
    simp only [isPref] at h
    by_cases hxy : x = y
    · exact ⟨ys, by rw [hxy]⟩
    · rw [if_neg hxy] at h
      exact absurd h (by simp)

theorem cons_ne_cons_of_head_ne {x y : String} {xs ys : Path} (h : x ≠ y) :
    x :: xs ≠ y :: ys := by
  intro he
  injection he with h1 _
  exact h h1

theorem getF_copytreeF_not_dst {fs : FS} {src dst q : Path} (h : isPref dst q = false) :
    getF (copytreeF fs src dst) q = getF fs q := by
  rw [getF_copytreeF, if_neg (by rw [h]; exact Bool.false_ne_true)]

theorem getF_copytreeF_fresh {fs : FS} {dst : Path} (src : Path)
    (hfree : pathExists fs dst = false) (rel : Path) :
    getF (copytreeF fs src dst) (dst ++ rel) = getF fs (src ++ rel) := by
  rw [getF_copytreeF, if_pos (isPref_append dst rel), drop_append_self]
  cases h2 : getF fs (src ++ rel) with
  | some c => rfl
  | none =>
    dsimp only
    obtain ⟨hg, hd⟩ := pathExists_eq_false_iff.mp hfree
    cases hrel : rel with
    | nil =>
      rw [List.append_nil]
      exact hg
    | cons x xs =>
      cases h3 : getF fs (dst ++ x :: xs) with
      | none => rfl
      | some c =>
        exfalso
        have hde : dirExists fs dst = true :=
          dirExists_of_getF_strict h3 (strictPref_append (by simp))
        rw [hde] at hd
        cases hd

theorem getDeploymentInfo_some_getF {fs : FS} {aid : String} {r : DeploymentRecord}
    (h : getDeploymentInfo fs aid = some r) :
    getF fs (metadataPath aid) = some (FData.record r) := by
  unfold getDeploymentInfo at h
  cases hg : getF fs (metadataPath aid) with
  | none =>
    rw [hg] at h
    cases h
  | some c =>
    cases c with
    | text s2 =>
      rw [hg] at h
      cases h
    | domains dd =>
      rw [hg] at h
      cases h
    | record r2 =>
      rw [hg] at h
      dsimp only at h
      rw [Option.some.injEq] at h
      rw [h]

theorem pathExists_appsDir_of_record {fs : FS} {aid : String} {r : DeploymentRecord}
    (h : getDeploymentInfo fs aid = some r) :
    pathExists fs (appsDir aid) = true := by
  have hg := getDeploymentInfo_some_getF h
  have hd : dirExists fs (appsDir aid) = true :=
    dirExists_of_getF_strict hg (strictPref_append (by simp))
  unfold pathExists
  rw [hd, Bool.or_true]

theorem effAppId_some {d : AppData} {aid fresh : String} (h : d.app_id = some aid)
    (hne : aid ≠ "") : effAppId d fresh = aid := by
  unfold effAppId
  rw [h]
  dsimp only
  rw [if_neg hne]

/-- C7: `update(app_id, data)` fails with `NotFound` when no deployment
record exists for `app_id`, and when the backup step fails (the backup
destination already exists) the update returns that backup failure; in
both failure cases the entire filesystem state — in particular the source
tree, published tree and registry record for `app_id` — is returned
unchanged: no destructive write has happened yet. -/
theorem c7_update_fail_fast (fs : FS) (env : BuildEnv) (aid : String) (d : AppData)
    (fresh ts now : String) :
    (getDeploymentInfo fs aid = none →
        updateDeployment fs env aid d fresh ts now
          = (fs, Except.error "Deployment not found"))
    ∧ (∀ r, getDeploymentInfo fs aid = some r →
        pathExists fs (backupsRoot ++ [backupName aid ts]) = true →
        updateDeployment fs env aid d fresh ts now
          = (fs, Except.error "File exists")) := by
  constructor
  · intro h
    unfold updateDeployment
    rw [h]
  · intro r h hb
    unfold updateDeployment
    rw [h]
    dsimp only
    have hbe : backupDeployment fs aid ts = (fs, Except.error "File exists") := by
      unfold backupDeployment
      rw [if_pos (pathExists_appsDir_of_record h)]
      dsimp only
      rw [if_pos hb]
    rw [hbe]

/-- Request body used in the static-deploy scenarios. -/
def dStat : AppData :=
  { app_id := some "x", app_name := none, app_type := some "static",
    files := [(["index.html"], "hi")] }

/-- C7 witness: both failure modes at concrete states. -/
theorem c7_update_fail_fast_witness :
    updateDeployment [] envOk "x" dStat "u" "TS" "t1"
        = ([], Except.error "Deployment not found")
    ∧ updateDeployment
        [(["apps", "x", "deployment.json"],
            FData.record (mkConfig "x" "app-x" "static" "t0" [(["index.html"], "OLD")])),
         (["backups", "x_backup_TS", "index.html"], FData.text "stale")]
        envOk "x" dStat "u" "TS" "t1"
        = ([(["apps", "x", "deployment.json"],
              FData.record (mkConfig "x" "app-x" "static" "t0" [(["index.html"], "OLD")])),
            (["backups", "x_backup_TS", "index.html"], FData.text "stale")],
           Except.error "File exists") := by
  constructor
  · exact (c7_update_fail_fast [] envOk "x" dStat "u" "TS" "t1").1 rfl
  · exact (c7_update_fail_fast
      [(["apps", "x", "deployment.json"],
          FData.record (mkConfig "x" "app-x" "static" "t0" [(["index.html"], "OLD")])),
       (["backups", "x_backup_TS", "index.html"], FData.text "stale")]
      envOk "x" dStat "u" "TS" "t1").2
      (mkConfig "x" "app-x" "static" "t0" [(["index.html"], "OLD")]) rfl rfl

theorem append_inj_right {a s t : Path} (h : a ++ s = a ++ t) : s = t := by
  have h2 := congrArg (List.drop a.length) h
  rwa [drop_append_self, drop_append_self] at h2

theorem getF_preBranchFS_metadata (g : FS) (fresh now : String) (d : AppData) :
    getF (preBranchFS g fresh now d) (metadataPath (effAppId d fresh))
      = some (FData.record (deployConfig fresh now d)) := by
  unfold preBranchFS saveDeploymentMetadata
  rw [getF_writeF, if_pos rfl]

theorem getF_preBranchFS_file {g : FS} {fresh now : String} {d : AppData}
    {rel : Path} {c : String} (hnd : (d.files.map Prod.fst).Nodup)
    (hmem : (rel, c) ∈ d.files) (hdj : rel ≠ ["deployment.json"]) :
    getF (preBranchFS g fresh now d) (appsDir (effAppId d fresh) ++ rel)
      = some (FData.text c) := by
  unfold preBranchFS saveDeploymentMetadata
  rw [getF_writeF, if_neg, getF_writeFiles_mem hnd hmem]
  intro he
  apply hdj
  exact append_inj_right
    (he.trans (show metadataPath (effAppId d fresh)
      = appsDir (effAppId d fresh) ++ ["deployment.json"] from rfl))

theorem getF_preBranchFS_cases {g : FS} {fresh now : String} {d : AppData}
    {q : Path} {v : FData} (hq : strictPref (appsDir (effAppId d fresh)) q = true)
    (h : getF (preBranchFS g fresh now d) q = some v) :
    q = metadataPath (effAppId d fresh) ∨
      ∃ rel c, (rel, c) ∈ d.files ∧ q = appsDir (effAppId d fresh) ++ rel
        ∧ v = FData.text c := by
  unfold preBranchFS saveDeploymentMetadata at h
  rw [getF_writeF] at h
  by_cases he : q = metadataPath (effAppId d fresh)
  · exact Or.inl he
  · rw [if_neg he] at h
    rcases getF_writeFiles_cases h with ⟨rel, c, hm, hq2, hv⟩ | h2
    · exact Or.inr ⟨rel, c, hm, hq2, hv⟩
    · rw [getF_clearTree, if_pos (strictPref_isPref hq)] at h2
      cases h2

theorem getF_preBranchFS_frame {g : FS} {fresh now : String} {d : AppData} {q : Path}
    (hA : isPref (appsDir (effAppId d fresh)) q = false) :
    getF (preBranchFS g fresh now d) q = getF g q := by
  unfold preBranchFS saveDeploymentMetadata
  rw [getF_writeF, if_neg, getF_writeFiles_notbelow, getF_clearTree,
    if_neg (by rw [hA]; exact Bool.false_ne_true)]
  · intro rel c hm
    exact append_ne_of_isPref_false hA rel
  · intro he
    rw [he, isPref_appsDir_metadata] at hA
    cases hA

theorem buildReactApp_frame {g : FS} {env : BuildEnv} {aid : String} {q : Path}
    (hA : isPref (appsDir aid) q = false) (hS : isPref (staticDir aid) q = false) :
    getF (buildReactApp g env aid).1 q = getF g q := by
  have hPost : getF (postBuildFS g env aid) q = getF g q := by
    unfold postBuildFS
    rw [getF_clearTree, if_neg (by rw [hS]; exact Bool.false_ne_true),
      getF_writeFiles_notbelow]
    intro rel c hm
    exact append_ne_of_isPref_false hA rel
  unfold buildReactApp
  dsimp only
  split_ifs with h1 h2 h3 h4 h5 h6
  · rfl
  · rfl
  · rfl
  · rfl
  · dsimp only
    rw [getF_copytreeF_not_dst hS, hPost]
  · dsimp only
    rw [getF_copytreeF_not_dst hS, hPost]
  · dsimp only
    exact hPost

theorem deployApp_frame {g : FS} {env : BuildEnv} {fresh now : String} {d : AppData}
    {q : Path} (hA : isPref (appsDir (effAppId d fresh)) q = false)
    (hS : isPref (staticDir (effAppId d fresh)) q = false) :
    getF (deployApp g env fresh now d).1 q = getF g q := by
  have hP : getF (preBranchFS g fresh now d) q = getF g q := getF_preBranchFS_frame hA
  unfold deployApp
  dsimp only
  split_ifs with h1 h2
  · dsimp only
    rw [getF_copytreeF_not_dst hS, getF_clearTree,
      if_neg (by rw [hS]; exact Bool.false_ne_true), hP]
  · have hB : getF (buildReactApp (preBranchFS g fresh now d) env (effAppId d fresh)).1 q
        = getF (preBranchFS g fresh now d) q := buildReactApp_frame hA hS
    have hR : ∃ R, buildReactApp (preBranchFS g fresh now d) env (effAppId d fresh) = R :=
      ⟨_, rfl⟩
    obtain ⟨⟨fs4, r⟩, hR⟩ := hR
    rw [hR] at hB ⊢
    cases r
    · dsimp only at hB ⊢
      rw [hB, hP]
    · dsimp only at hB ⊢
      rw [hB, hP]
  · dsimp only
    exact hP

theorem deployApp_static_getF_metadata {g : FS} {env : BuildEnv} {fresh now : String}
    {d : AppData} (ht : d.app_type = some "static") :
    getF (deployApp g env fresh now d).1 (metadataPath (effAppId d fresh))
      = some (FData.record (deployConfig fresh now d)) := by
  rw [deployApp_static_eq ht]
  dsimp only
  rw [getF_copytreeF_not_dst (isPref_staticDir_metadata _), getF_clearTree,
    if_neg (by rw [isPref_staticDir_metadata]; exact Bool.false_ne_true)]
  exact getF_preBranchFS_metadata g fresh now d

theorem deployApp_static_getF_source {g : FS} {env : BuildEnv} {fresh now : String}
    {d : AppData} {rel : Path} {c : String} (ht : d.app_type = some "static")
    (hnd : (d.files.map Prod.fst).Nodup) (hmem : (rel, c) ∈ d.files)
    (hdj : rel ≠ ["deployment.json"]) :
    getF (deployApp g env fresh now d).1 (appsDir (effAppId d fresh) ++ rel)
      = some (FData.text c) := by
  have hS : isPref (staticDir (effAppId d fresh)) (appsDir (effAppId d fresh) ++ rel)
      = false := isPref_head_ne (by decide)
  rw [deployApp_static_eq ht]
  dsimp only
  rw [getF_copytreeF_not_dst hS, getF_clearTree,
    if_neg (by rw [hS]; exact Bool.false_ne_true)]
  exact getF_preBranchFS_file hnd hmem hdj

theorem deployApp_static_getF_published {g : FS} {env : BuildEnv} {fresh now : String}
    {d : AppData} {rel : Path} {c : String} (ht : d.app_type = some "static")
    (hnd : (d.files.map Prod.fst).Nodup) (hmem : (rel, c) ∈ d.files)
    (hdj : rel ≠ ["deployment.json"]) :
    getF (deployApp g env fresh now d).1 (staticDir (effAppId d fresh) ++ rel)
      = some (FData.text c) := by
  have hS : isPref (staticDir (effAppId d fresh)) (appsDir (effAppId d fresh) ++ rel)
      = false := isPref_head_ne (by decide)
  rw [deployApp_static_eq ht]
  dsimp only
  rw [getF_copytree_clearTree, getF_clearTree,
    if_neg (by rw [hS]; exact Bool.false_ne_true)]
  exact getF_preBranchFS_file hnd hmem hdj

theorem deployApp_static_source_cases {g : FS} {env : BuildEnv} {fresh now : String}
    {d : AppData} {q : Path} {v : FData} (ht : d.app_type = some "static")
    (hq : strictPref (appsDir (effAppId d fresh)) q = true)
    (h : getF (deployApp g env fresh now d).1 q = some v) :
    q = metadataPath (effAppId d fresh) ∨
      ∃ rel c, (rel, c) ∈ d.files ∧ q = appsDir (effAppId d fresh) ++ rel
        ∧ v = FData.text c := by
  rw [deployApp_static_eq ht] at h
  dsimp only at h
  obtain ⟨t, hqt⟩ := isPref_cons_inv (strictPref_isPref hq)
  have hS : isPref (staticDir (effAppId d fresh)) q = false := by
    rw [hqt]
    exact isPref_head_ne (by decide)
  rw [getF_copytreeF_not_dst hS, getF_clearTree,
    if_neg (by rw [hS]; exact Bool.false_ne_true)] at h
  exact getF_preBranchFS_cases hq h

theorem deployApp_static_published_cases {g : FS} {env : BuildEnv} {fresh now : String}
    {d : AppData} {q : Path} {v : FData} (ht : d.app_type = some "static")
    (hq : strictPref (staticDir (effAppId d fresh)) q = true)
    (h : getF (deployApp g env fresh now d).1 q = some v) :
    q = staticDir (effAppId d fresh) ++ ["deployment.json"] ∨
      ∃ rel c, (rel, c) ∈ d.files ∧ q = staticDir (effAppId d fresh) ++ rel
        ∧ v = FData.text c := by
  obtain ⟨rel, hrel⟩ : ∃ rel, q = staticDir (effAppId d fresh) ++ rel :=
    ⟨_, (append_drop_of_isPref (strictPref_isPref hq)).symm⟩
  subst hrel
  have hrelne : rel ≠ [] := by
    intro h0
    subst h0
    rw [List.append_nil] at hq
    simp [strictPref] at hq
  rw [deployApp_static_eq ht] at h
  dsimp only at h
  rw [getF_copytree_clearTree] at h
  have hS : isPref (staticDir (effAppId d fresh)) (appsDir (effAppId d fresh) ++ rel)
      = false := isPref_head_ne (by decide)
  rw [getF_clearTree, if_neg (by rw [hS]; exact Bool.false_ne_true)] at h
  rcases getF_preBranchFS_cases (strictPref_append hrelne) h with h1 | ⟨rel2, c, hm, hq2, hv⟩
  · left
    have hr : rel = ["deployment.json"] :=
      append_inj_right (h1.trans (show metadataPath (effAppId d fresh)
        = appsDir (effAppId d fresh) ++ ["deployment.json"] from rfl))
    rw [hr]
  · right
    have hr : rel = rel2 := append_inj_right hq2
    exact ⟨rel2, c, hm, by rw [hr], hv⟩

/-- C6: deploying the same `app_id` twice (as a static app) with two
different file mappings leaves the source tree, the published tree and the
Deployment Registry record matching exactly the second deploy's file
mapping, with no file from the first deploy remaining: the second deploy
fully replaces the first's state.  (The only file in either tree besides
the second mapping's files is the `deployment.json` registry record the
code stores inside the source tree and copies with it.) -/
theorem c6_second_deploy_clean_slate (fs : FS) (env env2 : BuildEnv)
    (fresh now now2 : String) (d1 d2 : AppData) (aid : String)
    (h1 : d1.app_id = some aid) (h2 : d2.app_id = some aid) (hne : aid ≠ "")
    (ht2 : d2.app_type = some "static")
    (hnd : (d2.files.map Prod.fst).Nodup)
    (hkeys : ∀ rel c, (rel, c) ∈ d2.files → rel ≠ ["deployment.json"]) :
    (deployApp (deployApp fs env fresh now d1).1 env2 fresh now2 d2).2
        = Except.ok (deployConfig fresh now2 d2)
    ∧ getDeploymentInfo
        (deployApp (deployApp fs env fresh now d1).1 env2 fresh now2 d2).1 aid
        = some (deployConfig fresh now2 d2)
    ∧ (∀ rel c, (rel, c) ∈ d2.files →
        getF (deployApp (deployApp fs env fresh now d1).1 env2 fresh now2 d2).1
            (appsDir aid ++ rel) = some (FData.text c)
        ∧ getF (deployApp (deployApp fs env fresh now d1).1 env2 fresh now2 d2).1
            (staticDir aid ++ rel) = some (FData.text c))
    ∧ (∀ q v, strictPref (appsDir aid) q = true →
        getF (deployApp (deployApp fs env fresh now d1).1 env2 fresh now2 d2).1 q
          = some v →
        q = metadataPath aid
        ∨ ∃ rel c, (rel, c) ∈ d2.files ∧ q = appsDir aid ++ rel ∧ v = FData.text c)
    ∧ (∀ q v, strictPref (staticDir aid) q = true →
        getF (deployApp (deployApp fs env fresh now d1).1 env2 fresh now2 d2).1 q
          = some v →
        q = staticDir aid ++ ["deployment.json"]
        ∨ ∃ rel c, (rel, c) ∈ d2.files ∧ q = staticDir aid ++ rel ∧ v = FData.text c) := by
  have heff : effAppId d2 fresh = aid := effAppId_some h2 hne
  refine ⟨?_, ?_, ?_, ?_, ?_⟩
  · rw [deployApp_static_eq ht2]
  · have h : getF (deployApp (deployApp fs env fresh now d1).1 env2 fresh now2 d2).1
        (metadataPath (effAppId d2 fresh))
        = some (FData.record (deployConfig fresh now2 d2)) :=
      deployApp_static_getF_metadata ht2
    rw [heff] at h
    rw [getDeploymentInfo, h]
  · intro rel c hm
    have hA : getF (deployApp (deployApp fs env fresh now d1).1 env2 fresh now2 d2).1
        (appsDir (effAppId d2 fresh) ++ rel) = some (FData.text c) :=
      deployApp_static_getF_source ht2 hnd hm (hkeys rel c hm)
    have hB : getF (deployApp (deployApp fs env fresh now d1).1 env2 fresh now2 d2).1
        (staticDir (effAppId d2 fresh) ++ rel) = some (FData.text c) :=
      deployApp_static_getF_published ht2 hnd hm (hkeys rel c hm)
    rw [heff] at hA hB
    exact ⟨hA, hB⟩
  · intro q v hq h
    rw [← heff] at hq
    have hc := deployApp_static_source_cases ht2 hq h
    rw [heff] at hc
    exact hc
  · intro q v hq h
    rw [← heff] at hq
    have hc := deployApp_static_published_cases ht2 hq h
    rw [heff] at hc
    exact hc

/-- First and second request bodies of the double-deploy scenario. -/
def dStat1 : AppData :=
  { app_id := some "x", app_name := none, app_type := some "static",
    files := [(["old.html"], "1")] }

def dStat2 : AppData :=
  { app_id := some "x", app_name := none, app_type := some "static",
    files := [(["new.html"], "2")] }

/-- C6 witness: after deploying `old.html` then `new.html` for the same
app id, only the second mapping (plus the registry record) remains. -/
theorem c6_second_deploy_clean_slate_witness :
    (deployApp (deployApp [] envOk "u" "t1" dStat1).1 envOk "u" "t2" dStat2).2
        = Except.ok (deployConfig "u" "t2" dStat2)
    ∧ getF (deployApp (deployApp [] envOk "u" "t1" dStat1).1 envOk "u" "t2" dStat2).1
        (appsDir "x" ++ ["new.html"]) = some (FData.text "2")
    ∧ getF (deployApp (deployApp [] envOk "u" "t1" dStat1).1 envOk "u" "t2" dStat2).1
        (staticDir "x" ++ ["new.html"]) = some (FData.text "2")
    ∧ getF (deployApp (deployApp [] envOk "u" "t1" dStat1).1 envOk "u" "t2" dStat2).1
        (appsDir "x" ++ ["old.html"]) = none
    ∧ getF (deployApp (deployApp [] envOk "u" "t1" dStat1).1 envOk "u" "t2" dStat2).1
        (staticDir "x" ++ ["old.html"]) = none := by
  have h := c6_second_deploy_clean_slate [] envOk envOk "u" "t1" "t2" dStat1 dStat2 "x"
    rfl rfl (by decide) rfl (by decide)
    (by
      intro rel c hm
      rw [show dStat2.files = [(["new.html"], "2")] from rfl, List.mem_singleton] at hm
      cases hm
      decide)
  refine ⟨h.1, ?_, ?_, rfl, rfl⟩
  · exact (h.2.2.1 ["new.html"] "2" (by simp [dStat2])).1
  · exact (h.2.2.1 ["new.html"] "2" (by simp [dStat2])).2

theorem updateDeployment_static_eq {fs : FS} {env : BuildEnv} {aid : String}
    {d : AppData} {fresh ts now : String} {r0 : DeploymentRecord}
    (h0 : getDeploymentInfo fs aid = some r0)
    (hbfree : pathExists fs (backupsRoot ++ [backupName aid ts]) = false)
    (ht : d.app_type = some "static") (hne : aid ≠ "") :
    updateDeployment fs env aid d fresh ts now
      = (saveDeploymentMetadata
           (deployApp (copytreeF fs (appsDir aid) (backupsRoot ++ [backupName aid ts]))
              env fresh now { d with app_id := some aid }).1
           aid
           { deployConfig fresh now { d with app_id := some aid } with
               updated_at := some now
               backup_created := some (backupsRoot ++ [backupName aid ts]) },
         Except.ok { deployConfig fresh now { d with app_id := some aid } with
               updated_at := some now
               backup_created := some (backupsRoot ++ [backupName aid ts]) }) := by
  unfold updateDeployment
  rw [h0]
  dsimp only
  have hbe : backupDeployment fs aid ts
      = (copytreeF fs (appsDir aid) (backupsRoot ++ [backupName aid ts]),
         Except.ok (backupsRoot ++ [backupName aid ts])) := by
    unfold backupDeployment
    rw [if_pos (pathExists_appsDir_of_record h0)]
    dsimp only
    rw [if_neg (by rw [hbfree]; exact Bool.false_ne_true)]
  rw [hbe]
  dsimp only
  rw [deployApp_static_eq (show ({ d with app_id := some aid } : AppData).app_type
      = some "static" from ht)]
  dsimp only
  rw [effAppId_some (show ({ d with app_id := some aid } : AppData).app_id
      = some aid from rfl) hne]

/-- C4: for every `app_id` with an existing deployment record (hence an
existing source tree), a static `update(app_id, new_data)` whose
timestamped backup destination is fresh creates exactly one new backup
snapshot whose content equals the pre-update source tree — the snapshot
even contains the OLD registry record while the registry afterwards holds
the new one, showing the snapshot was taken before the update's writes —
and no other path under the backups root is touched. -/
theorem c4_backup_before_destructive_update (fs : FS) (env : BuildEnv) (aid : String)
    (d : AppData) (fresh ts now : String) (r0 : DeploymentRecord)
    (h0 : getDeploymentInfo fs aid = some r0)
    (hbfree : pathExists fs (backupsRoot ++ [backupName aid ts]) = false)
    (ht : d.app_type = some "static") (hne : aid ≠ "") :
    (updateDeployment fs env aid d fresh ts now).2
        = Except.ok { deployConfig fresh now { d with app_id := some aid } with
            updated_at := some now
            backup_created := some (backupsRoot ++ [backupName aid ts]) }
    ∧ (∀ rel, getF (updateDeployment fs env aid d fresh ts now).1
          (backupsRoot ++ [backupName aid ts] ++ rel)
        = getF fs (appsDir aid ++ rel))
    ∧ getF (updateDeployment fs env aid d fresh ts now).1
          (backupsRoot ++ [backupName aid ts] ++ ["deployment.json"])
        = some (FData.record r0)
    ∧ (∀ p, isPref backupsRoot p = true →
        isPref (backupsRoot ++ [backupName aid ts]) p = false →
        getF (updateDeployment fs env aid d fresh ts now).1 p = getF fs p)
    ∧ getDeploymentInfo (updateDeployment fs env aid d fresh ts now).1 aid
        = some { deployConfig fresh now { d with app_id := some aid } with
            updated_at := some now
            backup_created := some (backupsRoot ++ [backupName aid ts]) } := by
  have hb : ∀ rel, getF (updateDeployment fs env aid d fresh ts now).1
      (backupsRoot ++ [backupName aid ts] ++ rel) = getF fs (appsDir aid ++ rel) := by
    intro rel
    rw [updateDeployment_static_eq h0 hbfree ht hne]
    dsimp only
    unfold saveDeploymentMetadata
    rw [getF_writeF, if_neg (show backupsRoot ++ [backupName aid ts] ++ rel
        ≠ metadataPath aid from append_ne_of_isPref_false
          (show isPref (backupsRoot ++ [backupName aid ts]) (metadataPath aid) = false
            from isPref_head_ne (by decide)) rel)]
    have hA : isPref (appsDir (effAppId { d with app_id := some aid } fresh))
        (backupsRoot ++ [backupName aid ts] ++ rel) = false := by
      rw [effAppId_some (show ({ d with app_id := some aid } : AppData).app_id
          = some aid from rfl) hne]
      exact isPref_head_ne (by decide)
    have hS : isPref (staticDir (effAppId { d with app_id := some aid } fresh))
        (backupsRoot ++ [backupName aid ts] ++ rel) = false := by
      rw [effAppId_some (show ({ d with app_id := some aid } : AppData).app_id
          = some aid from rfl) hne]
      exact isPref_head_ne (by decide)
    rw [deployApp_frame hA hS]
    exact getF_copytreeF_fresh (appsDir aid) hbfree rel
  refine ⟨?_, hb, (hb ["deployment.json"]).trans (getDeploymentInfo_some_getF h0),
    ?_, ?_⟩
  · rw [updateDeployment_static_eq h0 hbfree ht hne]
  · intro p hb1 hb2
    rw [updateDeployment_static_eq h0 hbfree ht hne]
    dsimp only
    unfold saveDeploymentMetadata
    obtain ⟨t, hp⟩ := isPref_cons_inv hb1
    rw [getF_writeF, if_neg (by rw [hp]; exact cons_ne_cons_of_head_ne (by decide))]
    have hA : isPref (appsDir (effAppId { d with app_id := some aid } fresh)) p = false := by
      rw [effAppId_some (show ({ d with app_id := some aid } : AppData).app_id
          = some aid from rfl) hne, hp]
      exact isPref_head_ne (by decide)
    have hS : isPref (staticDir (effAppId { d with app_id := some aid } fresh)) p
        = false := by
      rw [effAppId_some (show ({ d with app_id := some aid } : AppData).app_id
          = some aid from rfl) hne, hp]
      exact isPref_head_ne (by decide)
    rw [deployApp_frame hA hS]
    exact getF_copytreeF_not_dst hb2
  · rw [updateDeployment_static_eq h0 hbfree ht hne]
    dsimp only
    unfold getDeploymentInfo saveDeploymentMetadata
    rw [getF_writeF, if_pos rfl]

/-- C4 witness: updating a deployed app whose source tree holds `OLD`
content produces one backup snapshot containing that content and the old
registry record. -/
theorem c4_backup_before_destructive_update_witness :
    (updateDeployment
        [(["apps", "x", "index.html"], FData.text "OLD"),
         (["apps", "x", "deployment.json"],
            FData.record (mkConfig "x" "app-x" "static" "t0" [(["index.html"], "OLD")]))]
        envOk "x" dStat "u" "TS" "t1").2
      = Except.ok { deployConfig "u" "t1" { dStat with app_id := some "x" } with
          updated_at := some "t1"
          backup_created := some (backupsRoot ++ [backupName "x" "TS"]) }
    ∧ getF (updateDeployment
        [(["apps", "x", "index.html"], FData.text "OLD"),
         (["apps", "x", "deployment.json"],
            FData.record (mkConfig "x" "app-x" "static" "t0" [(["index.html"], "OLD")]))]
        envOk "x" dStat "u" "TS" "t1").1
        (backupsRoot ++ [backupName "x" "TS"] ++ ["index.html"])
      = some (FData.text "OLD")
    ∧ getF (updateDeployment
        [(["apps", "x", "index.html"], FData.text "OLD"),
         (["apps", "x", "deployment.json"],
            FData.record (mkConfig "x" "app-x" "static" "t0" [(["index.html"], "OLD")]))]
        envOk "x" dStat "u" "TS" "t1").1
        (backupsRoot ++ [backupName "x" "TS"] ++ ["deployment.json"])
      = some (FData.record (mkConfig "x" "app-x" "static" "t0" [(["index.html"], "OLD")])) := by
  have h := c4_backup_before_destructive_update
    [(["apps", "x", "index.html"], FData.text "OLD"),
     (["apps", "x", "deployment.json"],
        FData.record (mkConfig "x" "app-x" "static" "t0" [(["index.html"], "OLD")]))]
    envOk "x" dStat "u" "TS" "t1"
    (mkConfig "x" "app-x" "static" "t0" [(["index.html"], "OLD")])
    rfl rfl rfl (by decide)
  exact ⟨h.1, (h.2.1 ["index.html"]).trans rfl, h.2.2.1⟩

end SebairCode
